import Mathlib

/-!
# Raw-transaction signing RPCs of `src/rpcrawtransaction.cpp`

A shallow embedding of `listunspent`, `SignTransaction`, `signrawtransaction`,
`SendTransaction`, `FindTxSource` and `refundtransaction`, followed by theorems
about them.

Conventions of the embedding:

* a C++ exception is the `Except.error` branch of the result, carrying a `Failure`;
* an index past the end of a `std::vector` (undefined behaviour in C++) is the
  failure `Failure.OutOfRange`;
* `uint256` values and script bytes are natural numbers, a `CScript` is the list of
  its bytes;
* code that lives outside `rpcrawtransaction.cpp` (script engine, key stores,
  serialization, chain database, wallet) is a field of `ScriptEngine`, `Env` or
  `WalletView`.
-/

namespace Noirbits

/-! ## Data model -/

/-- A 256-bit hash (transaction id). -/
abbrev uint256 := Nat

/-- A script, as its sequence of bytes. -/
abbrev CScript := List Nat

/-- Modelled from the spec: `COutPoint`, declared outside `rpcrawtransaction.cpp`; the
OutPoint of the spec (sourceTransactionId, outputIndex), read here as `hash` and `n`. -/
structure COutPoint where
  hash : uint256
  n : Nat
deriving DecidableEq, Repr

/-- Modelled from the spec: `CTxIn`, declared outside `rpcrawtransaction.cpp`; an
input references an OutPoint and carries a scriptSig and a sequence number. -/
structure CTxIn where
  prevout : COutPoint
  scriptSig : CScript
  nSequence : Nat
deriving DecidableEq, Repr

/-- Modelled from the spec: `CTxOut`, declared outside `rpcrawtransaction.cpp`; an
output is an amount and a receiving script. -/
structure CTxOut where
  nValue : Int
  scriptPubKey : CScript
deriving DecidableEq, Repr

/-- Modelled from the spec: `CTransaction`, declared outside `rpcrawtransaction.cpp`;
the ordered inputs and the ordered outputs, the two members this file reads and
writes. -/
structure CTransaction where
  vin : List CTxIn
  vout : List CTxOut
deriving DecidableEq, Repr

/-- Modelled from the spec: `CKey`, declared outside `rpcrawtransaction.cpp`; a
private key with the flag telling whether its public key is compressed. -/
structure CKey where
  secret : Nat
  fCompressed : Bool
deriving DecidableEq, Repr

/-- Modelled from the spec: `CKeyStore`, declared outside `rpcrawtransaction.cpp`;
the two key sources `SignTransaction` chooses between: `tempKeystore`, a
`CBasicKeyStore` given by the sequence of keys added with `AddKey` (Restricted),
and the global wallet `*pwalletMain` (Ambient). -/
inductive CKeyStore
  | tempKeystore (keys : List CKey)
  | pwalletMain
deriving DecidableEq, Repr

/-- What a C++ call can end in other than a value. -/
inductive Failure
  | JSONRPCError (code : Int) (message : String)
  | runtime_error (what : String)
  | OutOfRange
deriving DecidableEq, Repr

deriving instance DecidableEq for Except

/-! ## JSON values (json_spirit) -/

/-- The `Value_type` tags of json_spirit. -/
inductive Value_type
  | obj_type
  | array_type
  | str_type
  | bool_type
  | int_type
  | real_type
  | null_type
deriving DecidableEq, Repr

/-- A json_spirit `Value`; a real number is kept as its text. -/
inductive Value
  | obj (members : List (String × Value))
  | array (items : List Value)
  | str (s : String)
  | bool (b : Bool)
  | int (n : Int)
  | real (text : String)
  | null

/-- The tag of a value: `Value::type()`. -/
def Value.type : Value → Value_type
  | .obj _ => .obj_type
  | .array _ => .array_type
  | .str _ => .str_type
  | .bool _ => .bool_type
  | .int _ => .int_type
  | .real _ => .real_type
  | .null => .null_type

/-- The `find_value` helper: the first member with the given name, or `Value::null`. -/
def find_value (o : List (String × Value)) (name : String) : Value :=
  match o with
  | [] => Value.null
  | (k, v) :: rest => if k = name then v else find_value rest name

/-- The accessor `Value::get_str()`: throws on a value that is not a string (the
text of the exception stands for the one json_spirit builds). -/
def Value.get_str : Value → Except Failure String
  | .str s => .ok s
  | _ => .error (.runtime_error "value type is not str")

/-- Conversion of a 64-bit JSON integer to a C++ `int` (32 bits, two's complement). -/
def toInt32 (n : Int) : Int := (n + 2 ^ 31) % 2 ^ 32 - 2 ^ 31

/-- The accessor `Value::get_int()`: throws on a value that is not an integer. -/
def Value.get_int : Value → Except Failure Int
  | .int n => .ok (toInt32 n)
  | _ => .error (.runtime_error "value type is not int")

/-- The accessor `Value::get_array()`: throws on a value that is not an array. -/
def Value.get_array : Value → Except Failure (List Value)
  | .array a => .ok a
  | _ => .error (.runtime_error "value type is not array")

/-- The accessor `Value::get_obj()`: throws on a value that is not an object. -/
def Value.get_obj : Value → Except Failure (List (String × Value))
  | .obj o => .ok o
  | _ => .error (.runtime_error "value type is not obj")

/-! ## External capabilities -/

/-- The script engine of `script.cpp`, called by `SignTransaction`.

* `SignSignature keystore fromPubKey txTo nIn nHashType` is the `scriptSig` the
  call leaves in `txTo.vin[nIn]` (the call writes nothing else);
* `CombineSignatures scriptPubKey txTo nIn scriptSig1 scriptSig2` is its return value;
* `VerifyScript scriptSig scriptPubKey txTo nIn fValidatePayToScriptHash nHashType`
  is its return value. -/
structure ScriptEngine where
  SignSignature : CKeyStore → CScript → CTransaction → Nat → Int → CScript
  CombineSignatures : CScript → CTransaction → Nat → CScript → CScript → CScript
  VerifyScript : CScript → CScript → CTransaction → Nat → Bool → Int → Bool

/-- Everything else `rpcrawtransaction.cpp` calls but does not define.

* `IsHex`, `ParseHex`: the helpers of `util.cpp`; `SetHex`: `uint256::SetHex`;
* `ScriptToString`: `CScript::ToString`;
* `RPCTypeCheckObj`, `RPCTypeCheckParams`: the two overloads of `RPCTypeCheck`;
* `SetString`: `CBitcoinSecret::SetString` followed by `GetSecret` and
  `CKey::SetSecret`, `none` when `fGood` is false;
* `mapPrevTx`: the content of `mapPrevTx` after `FetchInputs`, per transaction id
  the outputs of that transaction;
* `Unserialize`: one `ssData >> tx`, the transaction read and the rest of the
  stream, `none` when it throws; `Serialize` and `HexStr` the way back;
* `GetHash`, `GetHex`: `CTransaction::GetHash` and `uint256::GetHex`;
* `SIGHASH_*`: the constants of `script.h`;
* `HelpRequiringPassphrase`, `EnsureWalletIsUnlocked`: the wallet helpers of
  `bitcoinrpc.cpp`, the second as the outcome of the call;
* `GetTransaction`: the transaction with the given id and the hash of its block
  (0 when it is only in the memory pool), `none` when the call returns false;
* `AcceptToMemoryPool`: the return value of `tx.AcceptToMemoryPool(txdb)`;
* `mapWallet`, `IsMine`: the wallet's transactions and its ownership test;
* `ExtractDestinations`: the addresses of a script, `none` when the call returns
  false; `SetDestination`: the script paying to a destination;
  `DecodeAddress`: the destination of `CBitcoinAddress(string)`. -/
structure Env where
  IsHex : String → Bool
  ParseHex : String → List Nat
  SetHex : String → uint256
  ScriptToString : CScript → String
  RPCTypeCheckObj : List (String × Value) → List (String × Value_type) → Except Failure Unit
  RPCTypeCheckParams : List Value → List Value_type → Except Failure Unit
  SetString : String → Option CKey
  mapPrevTx : uint256 → Option (List CTxOut)
  Unserialize : List Nat → Option (CTransaction × List Nat)
  Serialize : CTransaction → List Nat
  HexStr : List Nat → String
  GetHash : CTransaction → uint256
  GetHex : uint256 → String
  SIGHASH_ALL : Int
  SIGHASH_NONE : Int
  SIGHASH_SINGLE : Int
  SIGHASH_ANYONECANPAY : Int
  HelpRequiringPassphrase : String
  EnsureWalletIsUnlocked : Except Failure Unit
  GetTransaction : uint256 → Option (CTransaction × uint256)
  AcceptToMemoryPool : CTransaction → Bool
  mapWallet : uint256 → Option CTransaction
  IsMine : CScript → Bool
  ExtractDestinations : CScript → Option (List Nat)
  SetDestination : Nat → CScript
  DecodeAddress : String → Nat

/-! ## `SignTransaction`: output-script resolution -/

/-- The `map<COutPoint, CScript> mapPrevOut`, as an association list with at most
one entry per key in use. -/
abbrev PrevOutMap := List (COutPoint × CScript)

/-- Lookup in the map: `some` of the mapped script when `count(k)` is 1. -/
def PrevOutMap.find (m : PrevOutMap) (k : COutPoint) : Option CScript :=
  match m with
  | [] => none
  | (k', v) :: rest => if k' = k then some v else PrevOutMap.find rest k

/-- The assignment `m[k] = v`: overwrite the entry of `k`, or add one. -/
def PrevOutMap.set (m : PrevOutMap) (k : COutPoint) (v : CScript) : PrevOutMap :=
  match m with
  | [] => [(k, v)]
  | (k', v') :: rest => if k' = k then (k, v) :: rest else (k', v') :: PrevOutMap.set rest k v

/-- One round of the loop copying the fetched outputs into `mapPrevOut`
(lines 339-344). -/
def copyPrevOut (env : Env) (mapPrevOut : PrevOutMap) (txin : CTxIn) :
    Except Failure PrevOutMap :=
  match env.mapPrevTx txin.prevout.hash with
  | none => .ok mapPrevOut
  | some vout =>
    match vout[txin.prevout.n]? with
    | none => .error .OutOfRange
    | some out => .ok (mapPrevOut.set txin.prevout out.scriptPubKey)

/-- The block "Fetch previous transactions (inputs)" (lines 329-345). -/
def fetchPrevOuts (env : Env) (mergedTx : CTransaction) : Except Failure PrevOutMap :=
  mergedTx.vin.foldlM (copyPrevOut env) []

/-- The error thrown when an override disagrees with the script already resolved
(lines 381-384). -/
def ScriptMismatch (env : Env) (resolved given : CScript) : Failure :=
  .JSONRPCError (-22)
    ("Previous output scriptPubKey mismatch:\n" ++ env.ScriptToString resolved ++ "\nvs:\n"
      ++ env.ScriptToString given)

/-- Decoding of one entry of `prevTxs` into its outpoint and script
(lines 352-375). -/
def parsePrevOut (env : Env) (p : Value) : Except Failure (COutPoint × CScript) :=
  if p.type ≠ .obj_type then
    .error (.JSONRPCError (-22)
      "expected object with \x7b\"txid\x27\",\"vout\",\"scriptPubKey\"\x7d")
  else do
    let prevOut ← p.get_obj
    env.RPCTypeCheckObj prevOut
      [("txid", .str_type), ("vout", .int_type), ("scriptPubKey", .str_type)]
    let txidHex ← (find_value prevOut "txid").get_str
    if !env.IsHex txidHex then
      throw (.JSONRPCError (-22) "txid must be hexadecimal")
    let txid := env.SetHex txidHex
    let nOut ← (find_value prevOut "vout").get_int
    if nOut < 0 then
      throw (.JSONRPCError (-22) "vout must be positive")
    let pkHex ← (find_value prevOut "scriptPubKey").get_str
    if !env.IsHex pkHex then
      throw (.JSONRPCError (-22) "scriptPubKey must be hexadecimal")
    let scriptPubKey : CScript := env.ParseHex pkHex
    pure (⟨txid, nOut.toNat⟩, scriptPubKey)

/-- The end of the loop body over `prevTxs` (lines 376-388): compare with the
script already resolved, or insert. -/
def applyPrevOut (env : Env) (mapPrevOut : PrevOutMap) (r : COutPoint × CScript) :
    Except Failure PrevOutMap :=
  match mapPrevOut.find r.1 with
  | some resolved =>
    if resolved ≠ r.2 then .error (ScriptMismatch env resolved r.2) else .ok mapPrevOut
  | none => .ok (mapPrevOut.set r.1 r.2)

/-- One round of the loop over `prevTxs` (lines 350-389). -/
def addPrevTx (env : Env) (mapPrevOut : PrevOutMap) (p : Value) : Except Failure PrevOutMap :=
  match parsePrevOut env p with
  | .error e => .error e
  | .ok r => applyPrevOut env mapPrevOut r

/-- The block "Add previous txouts given in the RPC call" (lines 347-390). -/
def addPrevTxs (env : Env) (mapPrevOut : PrevOutMap) (prevTxs : List Value) :
    Except Failure PrevOutMap :=
  if prevTxs.length > 0 then prevTxs.foldlM (addPrevTx env) mapPrevOut else .ok mapPrevOut

/-! ## `SignTransaction`: key source -/

/-- One round of the loop over `keys` (lines 397-408); `tempKeystore` is the
sequence of keys added so far. -/
def addKey (env : Env) (tempKeystore : List CKey) (k : Value) : Except Failure (List CKey) :=
  match k.get_str with
  | .error e => .error e
  | .ok s =>
    match env.SetString s with
    | none => .error (.JSONRPCError (-5) "Invalid private key")
    | some key => .ok (tempKeystore ++ [key])

/-- The key store `keystore` refers to (lines 392-410): the temporary store filled
from `keys` when `keys` is not empty, the wallet otherwise. -/
def selectKeystore (env : Env) (keys : List Value) : Except Failure CKeyStore :=
  if keys.length > 0 then
    match keys.foldlM (addKey env) [] with
    | .error e => .error e
    | .ok tempKeystore => .ok (.tempKeystore tempKeystore)
  else .ok .pwalletMain

/-! ## `SignTransaction`: signing, merging, verifying -/

/-- The assignment `tx.vin[i].scriptSig = s`. -/
def setScriptSig (tx : CTransaction) (i : Nat) (s : CScript) : CTransaction :=
  { tx with vin := tx.vin.modify (fun txin => { txin with scriptSig := s }) i }

/-- The value of `tx.vin[i].scriptSig`, empty when there is no such input. -/
def scriptSigAt (tx : CTransaction) (i : Nat) : CScript :=
  match tx.vin[i]? with
  | some txin => txin.scriptSig
  | none => []

/-- One round of the loop over `txVariants` (lines 427-430): the `scriptSig` of
input `i` of `mergedTx` becomes its combination with the one of `txv.vin[i]`. -/
def combineVariant (eng : ScriptEngine) (prevPubKey : CScript) (i : Nat)
    (mergedTx txv : CTransaction) : Except Failure CTransaction :=
  match mergedTx.vin[i]?, txv.vin[i]? with
  | some txin, some vi =>
    .ok (setScriptSig mergedTx i
      (eng.CombineSignatures prevPubKey mergedTx i txin.scriptSig vi.scriptSig))
  | _, _ => .error .OutOfRange

/-- One round of the loop "Sign what we can" (lines 413-433), on the pair
`(fComplete, mergedTx)`. -/
def signInput (eng : ScriptEngine) (keystore : CKeyStore) (mapPrevOut : PrevOutMap)
    (txVariants : List CTransaction) (nHashType : Int) (st : Bool × CTransaction) (i : Nat) :
    Except Failure (Bool × CTransaction) :=
  match st.2.vin[i]? with
  | none => .error .OutOfRange
  | some txin =>
    match mapPrevOut.find txin.prevout with
    | none => .ok (false, st.2)
    | some prevPubKey =>
      let cleared := setScriptSig st.2 i []
      let signed := setScriptSig cleared i
        (eng.SignSignature keystore prevPubKey cleared i nHashType)
      match txVariants.foldlM (combineVariant eng prevPubKey i) signed with
      | .error e => .error e
      | .ok merged =>
        if !eng.VerifyScript (scriptSigAt merged i) prevPubKey merged i true 0 then
          .ok (false, merged)
        else .ok (st.1, merged)

/-- The loop "Sign what we can" (lines 413-433) from `fComplete = true`. -/
def signInputs (eng : ScriptEngine) (keystore : CKeyStore) (mapPrevOut : PrevOutMap)
    (txVariants : List CTransaction) (nHashType : Int) (mergedTx : CTransaction) :
    Except Failure (Bool × CTransaction) :=
  (List.range mergedTx.vin.length).foldlM
    (signInput eng keystore mapPrevOut txVariants nHashType) (true, mergedTx)

/-- The two blocks that fill `mapPrevOut` (lines 329-390). -/
def resolveOutputs (env : Env) (mergedTx : CTransaction) (prevTxs : List Value) :
    Except Failure PrevOutMap :=
  match fetchPrevOuts env mergedTx with
  | .error e => .error e
  | .ok mapPrevOut => addPrevTxs env mapPrevOut prevTxs

/-- The function `SignTransaction` (lines 322-436). -/
def SignTransaction (env : Env) (eng : ScriptEngine) (txVariants : List CTransaction)
    (prevTxs keys : List Value) (nHashType : Int) : Except Failure (Bool × CTransaction) :=
  match txVariants[0]? with
  | none => .error .OutOfRange
  | some mergedTx =>
    match resolveOutputs env mergedTx prevTxs with
    | .error e => .error e
    | .ok mapPrevOut =>
      match selectKeystore env keys with
      | .error e => .error e
      | .ok keystore => signInputs eng keystore mapPrevOut txVariants nHashType mergedTx


/-! ## `signrawtransaction` -/

/-- The help text of `signrawtransaction` (lines 441-453). -/
def signrawtransactionHelp (env : Env) : String :=
  "signrawtransaction <hex string> [\x7b\"txid\":txid,\"vout\":n,\"scriptPubKey\":hex\x7d,...] [<privatekey1>,...] [sighashtype=\"ALL\"]\n"
  ++ "Sign inputs for raw transaction (serialized, hex-encoded).\n"
  ++ "Second optional argument is an array of previous transaction outputs that\n"
  ++ "this transaction depends on but may not yet be in the blockchain.\n"
  ++ "Third optional argument is an array of base58-encoded private\n"
  ++ "keys that, if given, will be the only keys used to sign the transaction.\n"
  ++ "Fourth option is a string that is one of six values; ALL, NONE, SINGLE or\n"
  ++ "ALL|ANYONECANPAY, NONE|ANYONECANPAY, SINGLE|ANYONECANPAY.\n"
  ++ "Returns json object with keys:\n"
  ++ "  hex : raw transaction with signature(s) (hex-encoded string)\n"
  ++ "  complete : 1 if transaction has a complete set of signature (0 if not)"
  ++ env.HelpRequiringPassphrase

/-- The loop `while (!ssData.empty())` (lines 463-476): transactions are read off
the stream until it is empty. A successful read consumes bytes, so the length of
the stream bounds the number of rounds; `fuel` is that bound, and a stream that
would not advance ends in a failure. -/
def readVariants (env : Env) : Nat → List Nat → Except Failure (List CTransaction)
  | _, [] => .ok []
  | 0, _ :: _ => .error (.runtime_error "stream did not advance")
  | fuel + 1, b :: bs =>
    match env.Unserialize (b :: bs) with
    | none => .error (.JSONRPCError (-22) "TX decode failed")
    | some (tx, rest) =>
      match readVariants env fuel rest with
      | .error e => .error e
      | .ok txVariants => .ok (tx :: txVariants)

/-- The array `prevTxs` (lines 481-483). -/
def signrawtransactionPrevTxs (params : List Value) : Except Failure (List Value) :=
  if params.length > 1 then
    match params[1]? with
    | none => .error .OutOfRange
    | some v => v.get_array
  else .ok []

/-- The array `keys` (lines 484-486): declared empty; with a third parameter,
`params[2].get_array()` is evaluated and its value dropped. -/
def signrawtransactionKeys (params : List Value) : Except Failure (List Value) :=
  if params.length > 2 then
    match params[2]? with
    | none => .error .OutOfRange
    | some v =>
      match v.get_array with
      | .error e => .error e
      | .ok _ => .ok []
  else .ok []

/-- The table `mapSigHashValues` (lines 492-500). -/
def mapSigHashValues (env : Env) : List (String × Int) :=
  [("ALL", env.SIGHASH_ALL),
   ("ALL|ANYONECANPAY", Int.lor env.SIGHASH_ALL env.SIGHASH_ANYONECANPAY),
   ("NONE", env.SIGHASH_NONE),
   ("NONE|ANYONECANPAY", Int.lor env.SIGHASH_NONE env.SIGHASH_ANYONECANPAY),
   ("SINGLE", env.SIGHASH_SINGLE),
   ("SINGLE|ANYONECANPAY", Int.lor env.SIGHASH_SINGLE env.SIGHASH_ANYONECANPAY)]

/-- The value mapped to a key of a `map<string, int>`, `none` when `count` is 0. -/
def mapFind (m : List (String × Int)) (key : String) : Option Int :=
  match m with
  | [] => none
  | (k, v) :: rest => if k = key then some v else mapFind rest key

/-- The hash type `nHashType` (lines 488-506). -/
def signrawtransactionHashType (env : Env) (params : List Value) : Except Failure Int :=
  if params.length > 3 then
    match params[3]? with
    | none => .error .OutOfRange
    | some v =>
      match v.get_str with
      | .error e => .error e
      | .ok strHashType =>
        match mapFind (mapSigHashValues env) strHashType with
        | some nHashType => .ok nHashType
        | none => .error (.JSONRPCError (-8) "Invalid sighash param")
  else .ok env.SIGHASH_ALL

/-- The RPC `signrawtransaction` (lines 438-519); the returned object has the
members `hex` and `complete`. -/
def signrawtransaction (env : Env) (eng : ScriptEngine) (params : List Value) (fHelp : Bool) :
    Except Failure Value :=
  if fHelp || params.length < 1 || params.length > 4 then
    .error (.runtime_error (signrawtransactionHelp env))
  else do
    if params.length < 3 then
      env.EnsureWalletIsUnlocked
    env.RPCTypeCheckParams params [.str_type, .array_type, .array_type]
    let strHex ← match params[0]? with
      | none => .error .OutOfRange
      | some v => v.get_str
    let txData := env.ParseHex strHex
    let txVariants ← readVariants env txData.length txData
    if txVariants.isEmpty then
      throw (.JSONRPCError (-22) "Missing transaction")
    let prevTxs ← signrawtransactionPrevTxs params
    let keys ← signrawtransactionKeys params
    let nHashType ← signrawtransactionHashType env params
    let signResult ← SignTransaction env eng txVariants prevTxs keys nHashType
    pure (.obj [("hex", .str (env.HexStr (env.Serialize signResult.2))),
      ("complete", .bool signResult.1)])

/-! ## `SendTransaction`, `FindTxSource`, `refundtransaction` -/

/-- What a call leaves behind in the node: acceptance into the memory pool with
the wallets told, and relay to the peers. -/
inductive Effect
  | AcceptToMemoryPool (tx : CTransaction)
  | SyncWithWallets (tx : CTransaction)
  | RelayMessage (hashTx : uint256) (tx : CTransaction)
deriving DecidableEq, Repr

/-- The function `SendTransaction` (lines 521-547): the effects of the call, in
order. -/
def SendTransaction (env : Env) (tx : CTransaction) : Except Failure (List Effect) :=
  let hashTx := env.GetHash tx
  match env.GetTransaction hashTx with
  | some (_, hashBlock) =>
    if hashBlock ≠ 0 then
      .error (.JSONRPCError (-5) ("transaction already in block " ++ env.GetHex hashBlock))
    else .ok [.RelayMessage hashTx tx]
  | none =>
    if !env.AcceptToMemoryPool tx then .error (.JSONRPCError (-22) "TX rejected")
    else .ok [.AcceptToMemoryPool tx, .SyncWithWallets tx, .RelayMessage hashTx tx]

/-- The function `CreateTxOut` (lines 576-582), on the destination of the address. -/
def CreateTxOut (env : Env) (caddr : Nat) (value : Int) : CTxOut :=
  ⟨value, env.SetDestination caddr⟩

/-- The function `FindTxSource` (lines 584-614): the loop returns or throws in its
first round, so only the first input is looked at. -/
def FindTxSource (env : Env) (wtx : CTransaction) : Except Failure Nat :=
  match wtx.vin with
  | [] => .error (.JSONRPCError (-5) "Source address not found")
  | vin :: _ =>
    match env.GetTransaction vin.prevout.hash with
    | none => .error (.JSONRPCError (-5) "No information available about transaction")
    | some (tx, _) =>
      match tx.vout[vin.prevout.n]? with
      | none => .error .OutOfRange
      | some vout =>
        match env.ExtractDestinations vout.scriptPubKey with
        | none => .error (.JSONRPCError (-5) "Cannot refund non standard transaction")
        | some addresses =>
          match addresses[vin.prevout.n]? with
          | none => .error .OutOfRange
          | some address => .ok address

/-- The help text of `refundtransaction` (lines 620-622). -/
def refundtransactionHelp : String :=
  "refundtransaction <txid> [<returnAddress>]\n"
  ++ "Refund an in-wallet transaction <txid> using the coins that were sent.\n"
  ++ "Returns the unsigned raw transaction, or false in case of failure."

/-- Conversion to `int64` (64 bits, two's complement). -/
def toInt64 (n : Int) : Int := (n + 2 ^ 63) % 2 ^ 64 - 2 ^ 63

/-- The loop "Build inputs" (lines 639-652) from output `i` on: the inputs pushed
and the value summed. -/
def buildInputs (env : Env) (hash : uint256) :
    List CTxOut → Nat → List CTxIn × Int → List CTxIn × Int
  | [], _, acc => acc
  | vout :: rest, i, acc =>
    if env.IsMine vout.scriptPubKey then
      buildInputs env hash rest (i + 1)
        (acc.1 ++ [⟨⟨hash, i⟩, [], 4294967295⟩], toInt64 (acc.2 + vout.nValue))
    else buildInputs env hash rest (i + 1) acc

/-- The unsigned refund transaction `wtxNew` as it stands at line 680, and
`none` where the function returns `false` at line 654. -/
def buildRefund (env : Env) (params : List Value) (hash : uint256) (wtx : CTransaction) :
    Except Failure (Option CTransaction) :=
  let built := buildInputs env hash wtx.vout 0 ([], 0)
  if built.2 = 0 then .ok none
  else if params.length = 1 then
    match FindTxSource env wtx with
    | .error e => .error e
    | .ok source => .ok (some ⟨built.1, [CreateTxOut env source built.2]⟩)
  else
    match params[1]? with
    | none => .error .OutOfRange
    | some v =>
      match v.get_str with
      | .error e => .error e
      | .ok s => .ok (some ⟨built.1, [CreateTxOut env (env.DecodeAddress s) built.2]⟩)

/-- The RPC `refundtransaction` (lines 616-695): the value returned and the
effects on the node. -/
def refundtransaction (env : Env) (eng : ScriptEngine) (params : List Value) (fHelp : Bool) :
    Except Failure (Value × List Effect) :=
  if fHelp || params.length < 1 || params.length > 2 then
    .error (.runtime_error refundtransactionHelp)
  else
    match params[0]? with
    | none => .error .OutOfRange
    | some v =>
      match v.get_str with
      | .error e => .error e
      | .ok s =>
        let hash := env.SetHex s
        match env.mapWallet hash with
        | none => .error (.JSONRPCError (-5) "Invalid or non-wallet transaction id")
        | some wtx =>
          match buildRefund env params hash wtx with
          | .error e => .error e
          | .ok none => .ok (.bool false, [])
          | .ok (some wtxNew) =>
            match SignTransaction env eng [wtxNew] [] [] env.SIGHASH_ALL with
            | .error e => .error e
            | .ok pair =>
              if pair.1 = true then
                let signedTx := pair.2
                match SendTransaction env signedTx with
                | .error e => .error e
                | .ok effects => .ok (.str (env.GetHex (env.GetHash signedTx)), effects)
              else .ok (.bool false, [])

/-! ## `listunspent` -/

/-- The three alternatives of `CTxDestination`, a key id or a script id being a
number here. -/
inductive CTxDestination
  | CNoDestination
  | CKeyID (id : Nat)
  | CScriptID (id : Nat)
deriving DecidableEq, Repr

/-- A `CBitcoinAddress`, as an opaque code; two addresses are the same address
exactly when their codes are equal. -/
abbrev CBitcoinAddress := Nat

/-- The class `COutput` as `listunspent` reads it: the wallet transaction `tx`, the
index `i` of the output and the depth `nDepth` of the transaction. -/
structure COutput where
  tx : CTransaction
  i : Int
  nDepth : Int
deriving DecidableEq, Repr

/-- What `listunspent` calls but `rpcrawtransaction.cpp` does not define.

* `AvailableCoins`: the vector filled by `pwalletMain->AvailableCoins(vecOutputs, false)`;
* `FromString`, `FromDestination`: the two constructors of `CBitcoinAddress`;
  `IsValid`, `AddressToString`: its members `IsValid()` and `ToString()`;
* `ExtractDestination`: the destination of a script, `none` when the call returns
  false;
* `mapAddressBook`: the account of a destination, `none` when `count` is 0;
* `IsPayToScriptHash`: the member of `CScript`; `GetCScript`: the redeem script the
  wallet holds for a script id, `none` when the call returns false;
* `ValueFromAmount`: the JSON value of an amount;
* `RPC_INVALID_ADDRESS_OR_KEY`, `RPC_INVALID_PARAMETER`: the error codes. -/
structure WalletView where
  AvailableCoins : List COutput
  FromString : String → CBitcoinAddress
  FromDestination : CTxDestination → CBitcoinAddress
  IsValid : CBitcoinAddress → Bool
  AddressToString : CBitcoinAddress → String
  ExtractDestination : CScript → Option CTxDestination
  mapAddressBook : CTxDestination → Option String
  IsPayToScriptHash : CScript → Bool
  GetCScript : Nat → Option CScript
  ValueFromAmount : Int → Value
  RPC_INVALID_ADDRESS_OR_KEY : Int
  RPC_INVALID_PARAMETER : Int

/-- The help text of `listunspent` (lines 150-155). -/
def listunspentHelp : String :=
  "listunspent [minconf=1] [maxconf=9999999]  [\"address\",...]\n"
  ++ "Returns array of unspent transaction outputs\n"
  ++ "with between minconf and maxconf (inclusive) confirmations.\n"
  ++ "Optionally filtered to only include txouts paid to specified addresses.\n"
  ++ "Results are an array of Objects, each of which has:\n"
  ++ "\x7btxid, vout, scriptPubKey, amount, confirmations\x7d"

/-- The depth `nMinDepth` (lines 159-161). -/
def listunspentMinDepth (params : List Value) : Except Failure Int :=
  if params.length > 0 then
    match params[0]? with
    | none => .error .OutOfRange
    | some v => v.get_int
  else .ok 1

/-- The depth `nMaxDepth` (lines 163-165). -/
def listunspentMaxDepth (params : List Value) : Except Failure Int :=
  if params.length > 1 then
    match params[1]? with
    | none => .error .OutOfRange
    | some v => v.get_int
  else .ok 9999999

/-- One round of the loop over the addresses given (lines 171-179); `setAddress`
is the set built so far. -/
def addAddress (w : WalletView) (setAddress : List CBitcoinAddress) (input : Value) :
    Except Failure (List CBitcoinAddress) :=
  match input.get_str with
  | .error e => .error e
  | .ok s =>
    let address := w.FromString s
    if !w.IsValid address then
      .error (.JSONRPCError w.RPC_INVALID_ADDRESS_OR_KEY ("Invalid Bitcoin address: " ++ s))
    else if address ∈ setAddress then
      .error (.JSONRPCError w.RPC_INVALID_PARAMETER
        ("Invalid parameter, duplicated address: " ++ s))
    else .ok (setAddress ++ [address])

/-- The set `setAddress` (lines 167-180). -/
def listunspentAddresses (w : WalletView) (params : List Value) :
    Except Failure (List CBitcoinAddress) :=
  if params.length > 2 then
    match params[2]? with
    | none => .error .OutOfRange
    | some v =>
      match v.get_array with
      | .error e => .error e
      | .ok inputs => inputs.foldlM (addAddress w) []
  else .ok []

/-- The output `out.tx->vout[out.i]`, `none` when the index is out of range. -/
def voutAt (out : COutput) : Option CTxOut :=
  if out.i < 0 then none else out.tx.vout[out.i.toNat]?

/-- The member `redeemScript` of an entry (lines 213-223), present for a
pay-to-script-hash script whose redeem script the wallet holds; `boost::get`
throws on a destination that is not a script id. -/
def redeemScriptMember (env : Env) (w : WalletView) (pk : CScript) :
    Except Failure (List (String × Value)) :=
  if w.IsPayToScriptHash pk then
    match w.ExtractDestination pk with
    | none => .ok []
    | some (.CScriptID hash) =>
      match w.GetCScript hash with
      | some redeemScript => .ok [("redeemScript", .str (env.HexStr redeemScript))]
      | none => .ok []
    | some _ => .error (.runtime_error "boost::bad_get")
  else .ok []

/-- The members `address` and `account` of an entry (lines 205-211). -/
def addressMembers (w : WalletView) (pk : CScript) : List (String × Value) :=
  match w.ExtractDestination pk with
  | none => []
  | some address =>
    ("address", .str (w.AddressToString (w.FromDestination address))) ::
      (match w.mapAddressBook address with
       | some account => [("account", .str account)]
       | none => [])

/-- The entry built for an output (lines 200-226). -/
def unspentEntry (env : Env) (w : WalletView) (out : COutput) : Except Failure Value :=
  match voutAt out with
  | none => .error .OutOfRange
  | some txout =>
    let nValue := txout.nValue
    let pk := txout.scriptPubKey
    match redeemScriptMember env w pk with
    | .error e => .error e
    | .ok redeem =>
      .ok (.obj ([("txid", .str (env.GetHex (env.GetHash out.tx))), ("vout", .int out.i)]
        ++ addressMembers w pk
        ++ [("scriptPubKey", .str (env.HexStr pk))]
        ++ redeem
        ++ [("amount", w.ValueFromAmount nValue), ("confirmations", .int out.nDepth)]))

/-- One round of the loop over `vecOutputs` (lines 185-227); `results` is the
array built so far. -/
def listunspentOutput (env : Env) (w : WalletView) (nMinDepth nMaxDepth : Int)
    (setAddress : List CBitcoinAddress) (results : List Value) (out : COutput) :
    Except Failure (List Value) :=
  if out.nDepth < nMinDepth || out.nDepth > nMaxDepth then .ok results
  else
    let pushEntry : Except Failure (List Value) :=
      match unspentEntry env w out with
      | .error e => .error e
      | .ok entry => .ok (results ++ [entry])
    if setAddress.length ≠ 0 then
      match voutAt out with
      | none => .error .OutOfRange
      | some txout =>
        match w.ExtractDestination txout.scriptPubKey with
        | none => .ok results
        | some address =>
          if w.FromDestination address ∉ setAddress then .ok results else pushEntry
    else pushEntry

/-- The RPC `listunspent` (lines 146-230). -/
def listunspent (env : Env) (w : WalletView) (params : List Value) (fHelp : Bool) :
    Except Failure Value :=
  if fHelp || params.length > 3 then .error (.runtime_error listunspentHelp)
  else
    match env.RPCTypeCheckParams params [.int_type, .int_type, .array_type] with
    | .error e => .error e
    | .ok _ =>
      match listunspentMinDepth params with
      | .error e => .error e
      | .ok nMinDepth =>
        match listunspentMaxDepth params with
        | .error e => .error e
        | .ok nMaxDepth =>
          match listunspentAddresses w params with
          | .error e => .error e
          | .ok setAddress =>
            match w.AvailableCoins.foldlM
                (listunspentOutput env w nMinDepth nMaxDepth setAddress) [] with
            | .error e => .error e
            | .ok results => .ok (.array results)

/-! ## Vocabulary of the statements -/

/-- The transaction `mergedTx` at the moment the loop reaches input `k`: the inputs
below `k` as in the returned transaction `final`, the others as in the first
variant `base`. -/
def mergedUpTo (base final : CTransaction) (k : Nat) : CTransaction :=
  { base with vin := final.vin.take k ++ base.vin.drop k }

/-- The `scriptSig` each variant carries at input `i`, in the order of the variants. -/
def variantSigs (txVariants : List CTransaction) (i : Nat) : List CScript :=
  txVariants.map (fun txv => scriptSigAt txv i)

/-- One combination step at input `i`: the running `scriptSig` `acc`, which is also
the one `mergedTx` (here `ctx`) carries at `i` at that moment, with the candidate `c`. -/
def combineAt (eng : ScriptEngine) (prevPubKey : CScript) (ctx : CTransaction) (i : Nat)
    (acc c : CScript) : CScript :=
  eng.CombineSignatures prevPubKey (setScriptSig ctx i acc) i acc c

/-- The `scriptSig` the signer produces for input `i` after the one in place was
cleared. -/
def freshScriptSig (eng : ScriptEngine) (keystore : CKeyStore) (prevPubKey : CScript)
    (nHashType : Int) (ctx : CTransaction) (i : Nat) : CScript :=
  eng.SignSignature keystore prevPubKey (setScriptSig ctx i []) i nHashType

/-- Left fold of a combination over a list of candidates: the first candidate is
the running result, each later one is combined into it. -/
def foldCandidates (combine : CScript → CScript → CScript) : List CScript → CScript
  | [] => []
  | c :: cs => cs.foldl combine c

/-- The merged `scriptSig` of a resolved input `i`: the fold over the fresh
signature followed by the variants' signatures. -/
def mergedScriptSig (eng : ScriptEngine) (keystore : CKeyStore) (prevPubKey : CScript)
    (nHashType : Int) (txVariants : List CTransaction) (ctx : CTransaction) (i : Nat) : CScript :=
  foldCandidates (combineAt eng prevPubKey ctx i)
    (freshScriptSig eng keystore prevPubKey nHashType ctx i :: variantSigs txVariants i)

/-- Input `i` counts as verified: its outpoint is resolved and the verifier accepts
the `scriptSig` the returned transaction carries at `i`, in the transaction as it
stands once input `i` is merged. -/
def inputVerified (eng : ScriptEngine) (mapPrevOut : PrevOutMap) (base final : CTransaction)
    (i : Nat) : Bool :=
  match base.vin[i]? with
  | none => false
  | some txin =>
    match mapPrevOut.find txin.prevout with
    | none => false
    | some prevPubKey =>
      eng.VerifyScript (scriptSigAt final i) prevPubKey (mergedUpTo base final (i + 1)) i true 0

/-- What the returned transaction `final` carries at input `j`: the input of the
first variant itself when its outpoint is unresolved; otherwise every variant has
an input `j` and `final` carries the input of the first variant with the merged
`scriptSig`. -/
def InputMerged (eng : ScriptEngine) (keystore : CKeyStore) (mapPrevOut : PrevOutMap)
    (nHashType : Int) (txVariants : List CTransaction) (base final : CTransaction)
    (j : Nat) : Prop :=
  match base.vin[j]? with
  | none => True
  | some txin =>
    match mapPrevOut.find txin.prevout with
    | none => final.vin[j]? = some txin
    | some prevPubKey =>
      (∀ v ∈ txVariants, j < v.vin.length) ∧
      final.vin[j]? = some { txin with
        scriptSig := (mergedScriptSig eng keystore prevPubKey nHashType txVariants
          (mergedUpTo base final j) j) }

/-- The transaction with every `scriptSig` emptied: the structure of inputs and
outputs that a signature commits to. -/
def skeleton (t : CTransaction) : CTransaction :=
  { t with vin := t.vin.map (fun txin => { txin with scriptSig := [] }) }

/-- A script engine for scripts whose merge is order-independent: signing and
combining look at the transaction only through its skeleton, and the combination
is commutative, associative and idempotent. -/
structure OrderIndependent (eng : ScriptEngine) : Prop where
  sign_skeleton : ∀ ks p t t' i h, skeleton t = skeleton t' →
    eng.SignSignature ks p t i h = eng.SignSignature ks p t' i h
  combine_skeleton : ∀ p t t' i a b, skeleton t = skeleton t' →
    eng.CombineSignatures p t i a b = eng.CombineSignatures p t' i a b
  combine_comm : ∀ p t i a b,
    eng.CombineSignatures p t i a b = eng.CombineSignatures p t i b a
  combine_assoc : ∀ p t i a b c,
    eng.CombineSignatures p t i (eng.CombineSignatures p t i a b) c =
      eng.CombineSignatures p t i a (eng.CombineSignatures p t i b c)
  combine_idem : ∀ p t i a, eng.CombineSignatures p t i a a = a

/-- A script engine whose merge is order-independent on the admissible scriptSigs
of each script, `good p s` saying that `s` is admissible for the script `p`:
signing and combining look at the transaction only through its skeleton, the signer
produces admissible scriptSigs, the combination keeps them admissible and is
commutative, associative and idempotent on them. For a single-key script the
admissible scriptSigs are the empty one and the signature. -/
structure OrderIndependentOn (eng : ScriptEngine) (good : CScript → CScript → Prop) : Prop where
  sign_skeleton : ∀ ks p t t' i h, skeleton t = skeleton t' →
    eng.SignSignature ks p t i h = eng.SignSignature ks p t' i h
  combine_skeleton : ∀ p t t' i a b, skeleton t = skeleton t' →
    eng.CombineSignatures p t i a b = eng.CombineSignatures p t' i a b
  sign_good : ∀ ks p t i h, good p (eng.SignSignature ks p t i h)
  combine_good : ∀ p t i a b, good p a → good p b → good p (eng.CombineSignatures p t i a b)
  combine_comm : ∀ p t i a b, good p a → good p b →
    eng.CombineSignatures p t i a b = eng.CombineSignatures p t i b a
  combine_assoc : ∀ p t i a b c, good p a → good p b → good p c →
    eng.CombineSignatures p t i (eng.CombineSignatures p t i a b) c =
      eng.CombineSignatures p t i a (eng.CombineSignatures p t i b c)
  combine_idem : ∀ p t i a, good p a → eng.CombineSignatures p t i a a = a

/-- The depth of an output lies between the two bounds, both included. -/
def depthInRange (nMinDepth nMaxDepth : Int) (out : COutput) : Bool :=
  decide (nMinDepth ≤ out.nDepth) && decide (out.nDepth ≤ nMaxDepth)

/-- The script of an output yields a destination whose address is in the filter. -/
def paysToFilter (w : WalletView) (setAddress : List CBitcoinAddress) (out : COutput) : Bool :=
  match voutAt out with
  | none => false
  | some txout =>
    match w.ExtractDestination txout.scriptPubKey with
    | none => false
    | some address => decide (w.FromDestination address ∈ setAddress)

/-- An output qualifies for `listunspent`: its depth is in range and, when the
filter is not empty, its script pays to an address of the filter. -/
def qualifies (w : WalletView) (nMinDepth nMaxDepth : Int) (setAddress : List CBitcoinAddress)
    (out : COutput) : Bool :=
  depthInRange nMinDepth nMaxDepth out && (setAddress.isEmpty || paysToFilter w setAddress out)

/-- An output as the wallet hands it out: its index is an output of its
transaction, and a pay-to-script-hash script has a script id for destination. -/
def WellFormedOutput (w : WalletView) (out : COutput) : Prop :=
  ∃ txout, voutAt out = some txout ∧
    (w.IsPayToScriptHash txout.scriptPubKey = true →
      ∀ address, w.ExtractDestination txout.scriptPubKey = some address →
        ∃ hash, address = .CScriptID hash)

/-! ## Concrete instances -/

/-- A concrete environment: every string is hexadecimal, `ParseHex` gives the
character codes, `SetHex` the length of the text; a byte `b` of a stream reads as
the transaction whose one input spends output 0 of transaction `b`; the chain
knows transaction 1, whose only output carries the script `[7]`, and transaction 2,
which is also the wallet's transaction. -/
def fixtureEnv : Env where
  IsHex := fun _ => true
  ParseHex := fun s => s.data.map Char.toNat
  SetHex := fun s => s.length
  ScriptToString := fun s => String.mk (s.map Char.ofNat)
  RPCTypeCheckObj := fun _ _ => .ok ()
  RPCTypeCheckParams := fun _ _ => .ok ()
  SetString := fun s => if s.length = 0 then none else some ⟨s.length, true⟩
  mapPrevTx := fun h =>
    if h = 1 then some [⟨50, [7]⟩]
    else if h = 2 then some [⟨30, [7]⟩, ⟨12, [8]⟩]
    else none
  Unserialize := fun data =>
    match data with
    | [] => none
    | b :: rest => some (⟨[⟨⟨b, 0⟩, [], 0⟩], []⟩, rest)
  Serialize := fun tx => tx.vin.map (fun txin => txin.prevout.hash) ++
    (tx.vin.map (fun txin => txin.scriptSig)).flatten
  HexStr := fun bytes => String.mk (bytes.map Char.ofNat)
  GetHash := fun tx => tx.vin.length + 2
  GetHex := fun n => String.mk (List.replicate n (Char.ofNat 102))
  SIGHASH_ALL := 1
  SIGHASH_NONE := 2
  SIGHASH_SINGLE := 3
  SIGHASH_ANYONECANPAY := 128
  HelpRequiringPassphrase := ""
  EnsureWalletIsUnlocked := .ok ()
  GetTransaction := fun _ => none
  AcceptToMemoryPool := fun _ => true
  mapWallet := fun h =>
    if h = 2 then some ⟨[⟨⟨5, 0⟩, [], 0⟩], [⟨30, [7]⟩, ⟨12, [8]⟩]⟩ else none
  IsMine := fun s => s = [7]
  ExtractDestinations := fun s => some s
  SetDestination := fun d => [d]
  DecodeAddress := fun s => s.length

/-- A concrete script engine for single-key scripts: the script `[k]` is spent by
the signature `[k + 100]`; the wallet holds key 7; combination keeps the first
non-empty `scriptSig`. -/
def fixtureEngine : ScriptEngine where
  SignSignature := fun keystore fromPubKey _ _ _ =>
    match keystore, fromPubKey with
    | .tempKeystore keys, [k] => if keys.any (fun key => key.secret = k) then [k + 100] else []
    | .pwalletMain, [k] => if k = 7 then [k + 100] else []
    | _, _ => []
  CombineSignatures := fun _ _ _ scriptSig1 scriptSig2 =>
    if scriptSig1 = [] then scriptSig2 else scriptSig1
  VerifyScript := fun scriptSig scriptPubKey _ _ _ _ =>
    match scriptSig, scriptPubKey with
    | [s], [k] => s = k + 100
    | _, _ => false

/-- A two-input transaction: the first input spends output 0 of the chain
transaction 1, the second an output unknown to the chain. -/
def fixtureTx : CTransaction :=
  { vin := [⟨⟨1, 0⟩, [], 0⟩, ⟨⟨9, 0⟩, [], 0⟩], vout := [⟨40, [1, 2]⟩] }

/-- The engine `fixtureEngine` with a signer that finds no key for any input. -/
def noKeyEngine : ScriptEngine :=
  { fixtureEngine with SignSignature := fun _ _ _ _ _ => [] }

/-- A concrete wallet view: three available outputs with depths 3, 0 and 10; the
address of a text is its length, a script `[k]` pays to the key id `k`, whose
address is `k`. -/
def fixtureWallet : WalletView where
  AvailableCoins :=
    [⟨⟨[], [⟨30, [7]⟩, ⟨12, [8]⟩]⟩, 0, 3⟩, ⟨⟨[], [⟨30, [7]⟩, ⟨12, [8]⟩]⟩, 1, 0⟩,
      ⟨⟨[], [⟨5, [9]⟩]⟩, 0, 10⟩]
  FromString := fun s => s.length
  FromDestination := fun d =>
    match d with
    | .CNoDestination => 0
    | .CKeyID k => k
    | .CScriptID k => k + 1000
  IsValid := fun a => decide (a ≠ 0)
  AddressToString := fun a => String.mk (List.replicate a (Char.ofNat 97))
  ExtractDestination := fun s =>
    match s with
    | [k] => some (.CKeyID k)
    | _ => none
  mapAddressBook := fun _ => none
  IsPayToScriptHash := fun _ => false
  GetCScript := fun _ => none
  ValueFromAmount := fun n => .int n
  RPC_INVALID_ADDRESS_OR_KEY := -5
  RPC_INVALID_PARAMETER := -8

/-! # Theorems -/

/-! ## Output-script resolution -/

theorem ok_bind {α β : Type} (a : α) (f : α → Except Failure β) :
    (Except.ok a >>= f) = f a := rfl

theorem error_bind {α β : Type} (e : Failure) (f : α → Except Failure β) :
    (Except.error e >>= f) = Except.error e := rfl

theorem setScriptSig_vout (t : CTransaction) (i : Nat) (s : CScript) :
    (setScriptSig t i s).vout = t.vout := rfl

theorem setScriptSig_length (t : CTransaction) (i : Nat) (s : CScript) :
    (setScriptSig t i s).vin.length = t.vin.length := by
  simp [setScriptSig]

theorem setScriptSig_getElem? (t : CTransaction) (i j : Nat) (s : CScript) :
    (setScriptSig t i s).vin[j]? =
      (t.vin[j]?).map (fun txin => if i = j then { txin with scriptSig := s } else txin) := by
  simp only [setScriptSig, List.getElem?_modify]
  rfl

theorem setScriptSig_getElem?_ne (t : CTransaction) (i j : Nat) (s : CScript) (h : i ≠ j) :
    (setScriptSig t i s).vin[j]? = t.vin[j]? := by
  rw [setScriptSig_getElem?]
  cases t.vin[j]? <;> simp [h]

theorem setScriptSig_getElem?_self (t : CTransaction) (i : Nat) (s : CScript) (txin : CTxIn)
    (h : t.vin[i]? = some txin) :
    (setScriptSig t i s).vin[i]? = some { txin with scriptSig := s } := by
  rw [setScriptSig_getElem?, h]
  simp

theorem tx_ext_getElem? (t t' : CTransaction) (hout : t.vout = t'.vout)
    (hin : ∀ j : Nat, t.vin[j]? = t'.vin[j]?) : t = t' := by
  cases t
  cases t'
  simp only [CTransaction.mk.injEq]
  exact ⟨List.ext_getElem? hin, hout⟩

theorem setScriptSig_idem (t : CTransaction) (i : Nat) (a b : CScript) :
    setScriptSig (setScriptSig t i a) i b = setScriptSig t i b := by
  apply tx_ext_getElem?
  · rfl
  · intro j
    simp only [setScriptSig_getElem?]
    cases t.vin[j]? with
    | none => rfl
    | some txin => by_cases h : i = j <;> simp [h]

theorem setScriptSig_self (t : CTransaction) (i : Nat) (txin : CTxIn)
    (h : t.vin[i]? = some txin) : setScriptSig t i txin.scriptSig = t := by
  apply tx_ext_getElem?
  · rfl
  · intro j
    by_cases hij : i = j
    · subst hij
      rw [setScriptSig_getElem?_self t i _ txin h, h]
    · exact setScriptSig_getElem?_ne t i j _ hij

theorem scriptSigAt_setScriptSig (t : CTransaction) (i : Nat) (s : CScript) (txin : CTxIn)
    (h : t.vin[i]? = some txin) : scriptSigAt (setScriptSig t i s) i = s := by
  simp [scriptSigAt, setScriptSig_getElem?_self t i s txin h]

theorem combineAt_setScriptSig (eng : ScriptEngine) (p : CScript) (t : CTransaction) (i : Nat)
    (a : CScript) : combineAt eng p (setScriptSig t i a) i = combineAt eng p t i := by
  funext acc c
  simp [combineAt, setScriptSig_idem]

/-- The loop over the variants, in closed form: out of range when some variant has
no input `i`, else the fold of the combination from the `scriptSig` in place. -/
theorem combine_foldlM (eng : ScriptEngine) (p : CScript) (i : Nat)
    (txVariants : List CTransaction) :
    ∀ (t : CTransaction) (txin : CTxIn), t.vin[i]? = some txin →
      txVariants.foldlM (combineVariant eng p i) t =
        if ∀ v ∈ txVariants, i < v.vin.length then
          .ok (setScriptSig t i
            ((variantSigs txVariants i).foldl (combineAt eng p t i) txin.scriptSig))
        else .error .OutOfRange := by
  induction txVariants with
  | nil =>
    intro t txin h
    simp [variantSigs, setScriptSig_self t i txin h, pure, Except.pure]
  | cons v vs ih =>
    intro t txin h
    rw [List.foldlM_cons]
    cases hv : v.vin[i]? with
    | none =>
      have hlen : ¬ i < v.vin.length := by
        intro hlt
        rw [List.getElem?_eq_getElem hlt] at hv
        cases hv
      have hstep : combineVariant eng p i t v = .error .OutOfRange := by
        simp [combineVariant, h, hv]
      rw [hstep, error_bind]
      simp [hlen]
    | some vi =>
      have hlen : i < v.vin.length := by
        by_contra hlt
        rw [List.getElem?_eq_none (Nat.le_of_not_lt hlt)] at hv
        cases hv
      have hstep : combineVariant eng p i t v = .ok (setScriptSig t i
          (eng.CombineSignatures p t i txin.scriptSig vi.scriptSig)) := by
        simp [combineVariant, h, hv]
      rw [hstep, ok_bind, ih _ _ (setScriptSig_getElem?_self t i _ txin h)]
      have hsig : scriptSigAt v i = vi.scriptSig := by simp [scriptSigAt, hv]
      have hfirst : combineAt eng p t i txin.scriptSig (scriptSigAt v i) =
          eng.CombineSignatures p t i txin.scriptSig vi.scriptSig := by
        simp [combineAt, setScriptSig_self t i txin h, hsig]
      simp only [List.mem_cons, forall_eq_or_imp, hlen, true_and, variantSigs, List.map_cons,
        List.foldl_cons, combineAt_setScriptSig, setScriptSig_idem, hfirst]

/-- One round of the signing loop, in closed form. -/
theorem signInput_eq (eng : ScriptEngine) (ks : CKeyStore) (m : PrevOutMap)
    (txVariants : List CTransaction) (h : Int) (c : Bool) (t : CTransaction) (i : Nat)
    (txin : CTxIn) (hin : t.vin[i]? = some txin) :
    signInput eng ks m txVariants h (c, t) i =
      match m.find txin.prevout with
      | none => .ok (false, t)
      | some p =>
        if ∀ v ∈ txVariants, i < v.vin.length then
          .ok (c && eng.VerifyScript (mergedScriptSig eng ks p h txVariants t i) p
                (setScriptSig t i (mergedScriptSig eng ks p h txVariants t i)) i true 0,
            setScriptSig t i (mergedScriptSig eng ks p h txVariants t i))
        else .error .OutOfRange := by
  unfold signInput
  simp only [hin]
  cases hf : m.find txin.prevout with
  | none => rfl
  | some p =>
    have hsigned : (setScriptSig (setScriptSig t i []) i
        (eng.SignSignature ks p (setScriptSig t i []) i h)).vin[i]? =
        some { txin with scriptSig := eng.SignSignature ks p (setScriptSig t i []) i h } := by
      rw [setScriptSig_idem]
      exact setScriptSig_getElem?_self t i _ txin hin
    simp only [combine_foldlM eng p i txVariants _ _ hsigned]
    by_cases hall : ∀ v ∈ txVariants, i < v.vin.length
    · rw [if_pos hall, if_pos hall]
      simp only [setScriptSig_idem, combineAt_setScriptSig]
      have hs : scriptSigAt (setScriptSig t i (mergedScriptSig eng ks p h txVariants t i)) i =
          mergedScriptSig eng ks p h txVariants t i :=
        scriptSigAt_setScriptSig t i _ txin hin
      have hm : List.foldl (combineAt eng p t i)
          (eng.SignSignature ks p (setScriptSig t i []) i h) (variantSigs txVariants i) =
          mergedScriptSig eng ks p h txVariants t i := rfl
      rw [hm, hs]
      cases eng.VerifyScript (mergedScriptSig eng ks p h txVariants t i) p
        (setScriptSig t i (mergedScriptSig eng ks p h txVariants t i)) i true 0 <;>
        cases c <;> rfl
    · rw [if_neg hall, if_neg hall]

theorem mergedUpTo_congr (base t t' : CTransaction) (k : Nat)
    (h : ∀ j : Nat, j < k → t'.vin[j]? = t.vin[j]?) :
    mergedUpTo base t' k = mergedUpTo base t k := by
  have htake : t'.vin.take k = t.vin.take k := by
    apply List.ext_getElem?
    intro n
    simp only [List.getElem?_take]
    split
    · rename_i hn
      exact h n hn
    · rfl
  simp [mergedUpTo, htake]

theorem mergedUpTo_self (base t : CTransaction) (k : Nat) (hout : t.vout = base.vout)
    (h : ∀ j : Nat, k ≤ j → t.vin[j]? = base.vin[j]?) : mergedUpTo base t k = t := by
  have hdrop : base.vin.drop k = t.vin.drop k := by
    apply List.ext_getElem?
    intro n
    simp only [List.getElem?_drop]
    exact (h (k + n) (Nat.le_add_right k n)).symm
  cases t
  simp only [mergedUpTo, hdrop, List.take_append_drop] at *
  simp [hout]

theorem scriptSigAt_congr (t t' : CTransaction) (j : Nat) (h : t'.vin[j]? = t.vin[j]?) :
    scriptSigAt t' j = scriptSigAt t j := by
  simp [scriptSigAt, h]

theorem inputMerged_congr (eng : ScriptEngine) (ks : CKeyStore) (m : PrevOutMap) (h : Int)
    (txVariants : List CTransaction) (base t t' : CTransaction) (j : Nat)
    (hag : ∀ j' : Nat, j' ≤ j → t'.vin[j']? = t.vin[j']?)
    (hm : InputMerged eng ks m h txVariants base t j) :
    InputMerged eng ks m h txVariants base t' j := by
  unfold InputMerged at *
  rw [mergedUpTo_congr base t t' j (fun j' hj' => hag j' (Nat.le_of_lt hj')), hag j (Nat.le_refl j)]
  exact hm

theorem inputVerified_congr (eng : ScriptEngine) (m : PrevOutMap)
    (base t t' : CTransaction) (j : Nat)
    (hag : ∀ j' : Nat, j' ≤ j → t'.vin[j']? = t.vin[j']?) :
    inputVerified eng m base t' j = inputVerified eng m base t j := by
  unfold inputVerified
  rw [mergedUpTo_congr base t t' (j + 1) (fun j' hj' => hag j' (Nat.le_of_lt_succ hj')),
    scriptSigAt_congr t t' j (hag j (Nat.le_refl j))]

theorem all_congr_mem {α : Type} (l : List α) (f g : α → Bool)
    (h : ∀ x ∈ l, f x = g x) : l.all f = l.all g := by
  induction l with
  | nil => rfl
  | cons a as ih =>
    simp only [List.all_cons]
    rw [h a (List.mem_cons_self a as), ih (fun x hx => h x (List.mem_cons_of_mem a hx))]

theorem foldlM_range_succ {σ : Type} (f : σ → Nat → Except Failure σ) (s : σ) (k : Nat) :
    (List.range (k + 1)).foldlM f s =
      match (List.range k).foldlM f s with
      | .error e => .error e
      | .ok s' => f s' k := by
  rw [List.range_succ, List.foldlM_append]
  cases (List.range k).foldlM f s with
  | error e => rfl
  | ok s' =>
    rw [ok_bind, List.foldlM_cons]
    show (f s' k >>= fun init => List.foldlM f init []) = f s' k
    cases f s' k with
    | error e => rfl
    | ok s'' => rfl

/-- Invariant of the signing loop after the inputs below `k`. -/
theorem signRange_spec (eng : ScriptEngine) (ks : CKeyStore) (m : PrevOutMap)
    (txVariants : List CTransaction) (h : Int) (base : CTransaction) :
    ∀ k : Nat, k ≤ base.vin.length → ∀ (c : Bool) (t : CTransaction),
      (List.range k).foldlM (signInput eng ks m txVariants h) (true, base) = .ok (c, t) →
      t.vout = base.vout ∧ t.vin.length = base.vin.length ∧
      (∀ j : Nat, k ≤ j → t.vin[j]? = base.vin[j]?) ∧
      (∀ j : Nat, j < k → InputMerged eng ks m h txVariants base t j) ∧
      c = (List.range k).all (inputVerified eng m base t) := by
  intro k
  induction k with
  | zero =>
    intro _ c t hrun
    simp only [List.range_zero, List.foldlM_nil, pure, Except.pure, Except.ok.injEq,
      Prod.mk.injEq] at hrun
    obtain ⟨hc, ht⟩ := hrun
    subst hc
    subst ht
    exact ⟨rfl, rfl, fun _ _ => rfl, fun j hj => absurd hj (Nat.not_lt_zero j), rfl⟩
  | succ k ih =>
    intro hk c' t' hrun
    rw [foldlM_range_succ] at hrun
    cases hprev : (List.range k).foldlM (signInput eng ks m txVariants h) (true, base) with
    | error e =>
      rw [hprev] at hrun
      cases hrun
    | ok st =>
      obtain ⟨c, t⟩ := st
      rw [hprev] at hrun
      simp only at hrun
      obtain ⟨hout, hlen, hrest, hdone, hc⟩ := ih (Nat.le_of_succ_le hk) c t hprev
      have hklt : k < base.vin.length := hk
      have hbase : base.vin[k]? = some base.vin[k] := List.getElem?_eq_getElem hklt
      have hin : t.vin[k]? = some base.vin[k] := by rw [hrest k (Nat.le_refl k), hbase]
      have hself : mergedUpTo base t k = t := mergedUpTo_self base t k hout hrest
      rw [signInput_eq eng ks m txVariants h c t k _ hin] at hrun
      cases hf : m.find (base.vin[k]).prevout with
      | none =>
        simp only [hf, Except.ok.injEq, Prod.mk.injEq] at hrun
        obtain ⟨hc', ht'⟩ := hrun
        subst hc'
        subst ht'
        refine ⟨hout, hlen, fun j hj => hrest j (Nat.le_of_succ_le hj), fun j hj => ?_, ?_⟩
        · rcases Nat.lt_succ_iff_lt_or_eq.mp hj with hlt | heq
          · exact hdone j hlt
          · subst heq
            simp only [InputMerged, hbase, hf]
            exact hin
        · rw [List.range_succ, List.all_append]
          simp [inputVerified, hbase, hf]
      | some p =>
        simp only [hf] at hrun
        by_cases hall : ∀ v ∈ txVariants, k < v.vin.length
        · rw [if_pos hall] at hrun
          simp only [Except.ok.injEq, Prod.mk.injEq] at hrun
          obtain ⟨hc', ht'⟩ := hrun
          have hag : ∀ j : Nat, j ≠ k → t'.vin[j]? = t.vin[j]? := by
            intro j hj
            rw [← ht']
            exact setScriptSig_getElem?_ne t k j _ (Ne.symm hj)
          have hrest' : ∀ j : Nat, k + 1 ≤ j → t'.vin[j]? = base.vin[j]? := by
            intro j hj
            rw [hag j (by omega)]
            exact hrest j (by omega)
          have hout' : t'.vout = base.vout := by rw [← ht']; exact hout
          have hctx : mergedUpTo base t' k = t := by
            rw [mergedUpTo_congr base t t' k (fun j hj => hag j (by omega))]
            exact hself
          have hself' : mergedUpTo base t' (k + 1) = t' :=
            mergedUpTo_self base t' (k + 1) hout' hrest'
          have hink : t'.vin[k]? = some { base.vin[k] with
              scriptSig := (mergedScriptSig eng ks p h txVariants t k) } := by
            rw [← ht']
            exact setScriptSig_getElem?_self t k _ _ hin
          refine ⟨hout', ?_, hrest', fun j hj => ?_, ?_⟩
          · rw [← ht', setScriptSig_length]
            exact hlen
          · rcases Nat.lt_succ_iff_lt_or_eq.mp hj with hlt | heq
            · exact inputMerged_congr eng ks m h txVariants base t t' j
                (fun j' hj' => hag j' (by omega)) (hdone j hlt)
            · subst heq
              simp only [InputMerged, hbase, hf, hctx]
              exact ⟨hall, hink⟩
          · rw [List.range_succ, List.all_append]
            have hfirst : (List.range k).all (inputVerified eng m base t') =
                (List.range k).all (inputVerified eng m base t) := by
              apply all_congr_mem
              intro j hj
              exact inputVerified_congr eng m base t t' j
                (fun j' hj' => hag j' (by have := List.mem_range.mp hj; omega))
            have hlast : inputVerified eng m base t' k =
                eng.VerifyScript (mergedScriptSig eng ks p h txVariants t k) p t' k true 0 := by
              simp only [inputVerified, hbase, hf, hself']
              simp [scriptSigAt, hink]
            rw [hfirst, ← hc, ← hc']
            simp [hlast, ht']
        · rw [if_neg hall] at hrun
          cases hrun

/-! ## `SignTransaction` -/

theorem signInputs_spec (eng : ScriptEngine) (ks : CKeyStore) (m : PrevOutMap)
    (txVariants : List CTransaction) (h : Int) (base : CTransaction) (c : Bool)
    (t : CTransaction) (hrun : signInputs eng ks m txVariants h base = .ok (c, t)) :
    t.vout = base.vout ∧ t.vin.length = base.vin.length ∧
      (∀ j : Nat, InputMerged eng ks m h txVariants base t j) ∧
      c = (List.range base.vin.length).all (inputVerified eng m base t) := by
  obtain ⟨hout, hlen, _, hdone, hc⟩ :=
    signRange_spec eng ks m txVariants h base base.vin.length (Nat.le_refl _) c t hrun
  refine ⟨hout, hlen, fun j => ?_, hc⟩
  by_cases hj : j < base.vin.length
  · exact hdone j hj
  · simp [InputMerged, List.getElem?_eq_none (Nat.le_of_not_lt hj)]

theorem SignTransaction_ok (env : Env) (eng : ScriptEngine) (txVariants : List CTransaction)
    (prevTxs keys : List Value) (h : Int) (r : Bool × CTransaction)
    (hok : SignTransaction env eng txVariants prevTxs keys h = .ok r) :
    ∃ base m ks, txVariants[0]? = some base ∧ resolveOutputs env base prevTxs = .ok m ∧
      selectKeystore env keys = .ok ks ∧ signInputs eng ks m txVariants h base = .ok r := by
  unfold SignTransaction at hok
  cases hb : txVariants[0]? with
  | none => simp [hb] at hok
  | some base =>
    cases hm : resolveOutputs env base prevTxs with
    | error e => simp [hb, hm] at hok
    | ok m =>
      cases hk : selectKeystore env keys with
      | error e => simp [hb, hm, hk] at hok
      | ok ks =>
        simp only [hb, hm, hk] at hok
        exact ⟨base, m, ks, rfl, hm, rfl, hok⟩

/-- The transaction a round of the loop leaves does not depend on the verifier, nor
on the flag it started from. -/
theorem signInput_verifier (eng : ScriptEngine)
    (verifier : CScript → CScript → CTransaction → Nat → Bool → Int → Bool)
    (ks : CKeyStore) (m : PrevOutMap) (txVariants : List CTransaction) (h : Int)
    (c c' : Bool) (t : CTransaction) (i : Nat) (r : Bool × CTransaction)
    (hrun : signInput eng ks m txVariants h (c, t) i = .ok r) :
    ∃ c'', signInput { eng with VerifyScript := verifier } ks m txVariants h (c', t) i =
      .ok (c'', r.2) := by
  unfold signInput at *
  simp only at *
  cases hin : t.vin[i]? with
  | none => simp [hin] at hrun
  | some txin =>
    simp only [hin] at hrun ⊢
    cases hf : m.find txin.prevout with
    | none =>
      simp only [hf, Except.ok.injEq] at hrun ⊢
      exact ⟨false, by rw [← hrun]⟩
    | some p =>
      simp only [hf] at hrun ⊢
      have hcomb : combineVariant { eng with VerifyScript := verifier } p i =
          combineVariant eng p i := rfl
      rw [hcomb]
      cases hfold : List.foldlM (combineVariant eng p i)
          (setScriptSig (setScriptSig t i []) i
            (eng.SignSignature ks p (setScriptSig t i []) i h)) txVariants with
      | error e => simp [hfold] at hrun
      | ok merged =>
        simp only [hfold] at hrun ⊢
        have hr : r.2 = merged := by
          split at hrun <;> (cases hrun; rfl)
        rw [hr]
        split
        · exact ⟨false, rfl⟩
        · exact ⟨c', rfl⟩

theorem foldlM_signInput_verifier (eng : ScriptEngine)
    (verifier : CScript → CScript → CTransaction → Nat → Bool → Int → Bool)
    (ks : CKeyStore) (m : PrevOutMap) (txVariants : List CTransaction) (h : Int)
    (idx : List Nat) :
    ∀ (c c' : Bool) (t : CTransaction) (r : Bool × CTransaction),
      idx.foldlM (signInput eng ks m txVariants h) (c, t) = .ok r →
      ∃ c'', idx.foldlM (signInput { eng with VerifyScript := verifier } ks m txVariants h)
        (c', t) = .ok (c'', r.2) := by
  induction idx with
  | nil =>
    intro c c' t r hrun
    simp only [List.foldlM_nil, pure, Except.pure, Except.ok.injEq] at hrun ⊢
    exact ⟨c', by rw [← hrun]⟩
  | cons i rest ih =>
    intro c c' t r hrun
    rw [List.foldlM_cons] at hrun ⊢
    cases hstep : signInput eng ks m txVariants h (c, t) i with
    | error e =>
      rw [hstep, error_bind] at hrun
      cases hrun
    | ok st =>
      rw [hstep, ok_bind] at hrun
      obtain ⟨c1, hc1⟩ := signInput_verifier eng verifier ks m txVariants h c c' t i st hstep
      rw [hc1, ok_bind]
      exact ih st.1 c1 st.2 r hrun

/-- C2. For every non-failing call, the completeness flag is the conjunction, over
all inputs of the first variant, of "the outpoint is resolved and the verifier
accepts the merged scriptSig against the resolved script"; an unresolved input
makes the flag false whatever the verifier would answer; and with any other
verifier in place the call returns the same transaction, the flag being the same
conjunction for that verifier, so a rejected input does not keep later inputs from
being signed and merged. -/
theorem C2_completeness_flag (env : Env) (eng : ScriptEngine)
    (txVariants : List CTransaction) (prevTxs keys : List Value) (nHashType : Int)
    (fComplete : Bool) (tx : CTransaction)
    (hok : SignTransaction env eng txVariants prevTxs keys nHashType = .ok (fComplete, tx)) :
    ∃ base m, txVariants[0]? = some base ∧ resolveOutputs env base prevTxs = .ok m ∧
      fComplete = (List.range base.vin.length).all (inputVerified eng m base tx) ∧
      (∀ (i : Nat) (txin : CTxIn), base.vin[i]? = some txin → m.find txin.prevout = none →
        fComplete = false ∧
        ∀ verifier, inputVerified { eng with VerifyScript := verifier } m base tx i = false) ∧
      (∀ verifier, SignTransaction env { eng with VerifyScript := verifier } txVariants prevTxs
          keys nHashType =
        .ok ((List.range base.vin.length).all
          (inputVerified { eng with VerifyScript := verifier } m base tx), tx)) := by
  obtain ⟨base, m, ks, hb, hm, hk, hrun⟩ :=
    SignTransaction_ok env eng txVariants prevTxs keys nHashType _ hok
  obtain ⟨_, _, _, hc⟩ := signInputs_spec eng ks m txVariants nHashType base _ _ hrun
  refine ⟨base, m, hb, hm, hc, fun i txin hi hf => ⟨?_, fun verifier => ?_⟩, fun verifier => ?_⟩
  · rw [hc]
    have hlt : i < base.vin.length := by
      by_contra hge
      rw [List.getElem?_eq_none (Nat.le_of_not_lt hge)] at hi
      cases hi
    apply Bool.eq_false_iff.mpr
    intro hall
    have := List.all_eq_true.mp hall i (List.mem_range.mpr hlt)
    simp [inputVerified, hi, hf] at this
  · simp [inputVerified, hi, hf]
  · obtain ⟨c'', hc''⟩ := foldlM_signInput_verifier eng verifier ks m txVariants nHashType
      (List.range base.vin.length) true true base _ hrun
    have hrun' : signInputs { eng with VerifyScript := verifier } ks m txVariants nHashType base =
        .ok (c'', tx) := hc''
    obtain ⟨_, _, _, hcv⟩ :=
      signInputs_spec { eng with VerifyScript := verifier } ks m txVariants nHashType base _ _ hrun'
    unfold SignTransaction
    simp only [hb, hm, hk, hrun', hcv]

/-- Instance for C2: the wallet signs the first input of
`fixtureTx`, the second input is unresolved, the flag is false. -/
theorem C2_completeness_flag_witness :
    SignTransaction fixtureEnv fixtureEngine [fixtureTx] [] [] 1 =
      .ok (false, { fixtureTx with vin := [⟨⟨1, 0⟩, [107], 0⟩, ⟨⟨9, 0⟩, [], 0⟩] }) ∧
    ∃ base m, [fixtureTx][0]? = some base ∧ resolveOutputs fixtureEnv base [] = .ok m ∧
      false = (List.range base.vin.length).all (inputVerified fixtureEngine m base
        { fixtureTx with vin := [⟨⟨1, 0⟩, [107], 0⟩, ⟨⟨9, 0⟩, [], 0⟩] }) :=
  ⟨by decide,
    (C2_completeness_flag fixtureEnv fixtureEngine [fixtureTx] [] [] 1 false
      { fixtureTx with vin := [⟨⟨1, 0⟩, [107], 0⟩, ⟨⟨9, 0⟩, [], 0⟩] } (by decide)).imp
      fun _ hb => hb.imp fun _ hm => ⟨hm.1, hm.2.1, hm.2.2.1⟩⟩

/-- What `InputMerged` says at a resolved input. -/
theorem inputMerged_resolved (eng : ScriptEngine) (ks : CKeyStore) (m : PrevOutMap) (h : Int)
    (txVariants : List CTransaction) (base t : CTransaction) (i : Nat) (txin : CTxIn)
    (p : CScript) (hi : base.vin[i]? = some txin) (hf : m.find txin.prevout = some p)
    (hm : InputMerged eng ks m h txVariants base t i) :
    (∀ v ∈ txVariants, i < v.vin.length) ∧
      t.vin[i]? = some { txin with
        scriptSig := (mergedScriptSig eng ks p h txVariants (mergedUpTo base t i) i) } := by
  simp only [InputMerged, hi, hf] at hm
  exact hm

/-- What `InputMerged` says at an unresolved input. -/
theorem inputMerged_unresolved (eng : ScriptEngine) (ks : CKeyStore) (m : PrevOutMap) (h : Int)
    (txVariants : List CTransaction) (base t : CTransaction) (i : Nat) (txin : CTxIn)
    (hi : base.vin[i]? = some txin) (hf : m.find txin.prevout = none)
    (hm : InputMerged eng ks m h txVariants base t i) : t.vin[i]? = some txin := by
  simp only [InputMerged, hi, hf] at hm
  exact hm

/-- C3. For every resolved input `i` of a non-failing call, every variant has an
input `i` and the returned scriptSig of input `i` is the left fold of
`CombineSignatures` over the candidates: first the scriptSig the signer produces
once the scriptSig of input `i` is cleared, then the scriptSig of input `i` in each
variant, in the order of the variants; each step combines the running result, which
`mergedTx` carries at `i`, with the next candidate. -/
theorem C3_merge_order (env : Env) (eng : ScriptEngine)
    (txVariants : List CTransaction) (prevTxs keys : List Value) (nHashType : Int)
    (fComplete : Bool) (tx : CTransaction)
    (hok : SignTransaction env eng txVariants prevTxs keys nHashType = .ok (fComplete, tx)) :
    ∃ base m keystore, txVariants[0]? = some base ∧ resolveOutputs env base prevTxs = .ok m ∧
      selectKeystore env keys = .ok keystore ∧
      ∀ (i : Nat) (txin : CTxIn) (prevPubKey : CScript), base.vin[i]? = some txin →
        m.find txin.prevout = some prevPubKey →
        (∀ v ∈ txVariants, i < v.vin.length) ∧
        scriptSigAt tx i =
          foldCandidates
            (fun acc c => eng.CombineSignatures prevPubKey
              (setScriptSig (mergedUpTo base tx i) i acc) i acc c)
            (eng.SignSignature keystore prevPubKey (setScriptSig (mergedUpTo base tx i) i []) i
                nHashType ::
              txVariants.map (fun txv => scriptSigAt txv i)) := by
  obtain ⟨base, m, ks, hb, hm, hk, hrun⟩ :=
    SignTransaction_ok env eng txVariants prevTxs keys nHashType _ hok
  obtain ⟨_, _, hdone, _⟩ := signInputs_spec eng ks m txVariants nHashType base _ _ hrun
  refine ⟨base, m, ks, hb, hm, hk, fun i txin p hi hf => ?_⟩
  obtain ⟨hall, hsig⟩ :=
    inputMerged_resolved eng ks m nHashType txVariants base tx i txin p hi hf (hdone i)
  refine ⟨hall, ?_⟩
  simp only [scriptSigAt, hsig]
  rfl

/-- Instance for C3: two variants of a one-input transaction, the
second already carrying a signature. -/
theorem C3_merge_order_witness :
    SignTransaction fixtureEnv fixtureEngine
      [{ vin := [⟨⟨1, 0⟩, [], 0⟩], vout := [] }, { vin := [⟨⟨1, 0⟩, [5], 0⟩], vout := [] }]
      [] [.str "k"] 1 = .ok (false, { vin := [⟨⟨1, 0⟩, [5], 0⟩], vout := [] }) ∧
    ∃ base m keystore,
      [({ vin := [⟨⟨1, 0⟩, [], 0⟩], vout := [] } : CTransaction),
        { vin := [⟨⟨1, 0⟩, [5], 0⟩], vout := [] }][0]? = some base ∧
      resolveOutputs fixtureEnv base [] = .ok m ∧
      selectKeystore fixtureEnv [.str "k"] = .ok keystore :=
  ⟨by decide,
    (C3_merge_order fixtureEnv fixtureEngine
      [{ vin := [⟨⟨1, 0⟩, [], 0⟩], vout := [] }, { vin := [⟨⟨1, 0⟩, [5], 0⟩], vout := [] }]
      [] [.str "k"] 1 false { vin := [⟨⟨1, 0⟩, [5], 0⟩], vout := [] } (by decide)).imp
      fun _ hb => hb.imp fun _ hm => hm.imp fun _ hk => ⟨hk.1, hk.2.1, hk.2.2.1⟩⟩

/-- C4. The transaction a non-failing call returns is the first variant with only
the scriptSigs of resolved inputs replaced: same outputs, same number of inputs,
same outpoint and sequence number at every input, the very input of the first
variant wherever the outpoint is unresolved, and at every resolved input the
merged scriptSig. -/
theorem C4_frame (env : Env) (eng : ScriptEngine)
    (txVariants : List CTransaction) (prevTxs keys : List Value) (nHashType : Int)
    (fComplete : Bool) (tx : CTransaction)
    (hok : SignTransaction env eng txVariants prevTxs keys nHashType = .ok (fComplete, tx)) :
    ∃ base m keystore, txVariants[0]? = some base ∧ resolveOutputs env base prevTxs = .ok m ∧
      selectKeystore env keys = .ok keystore ∧
      tx.vout = base.vout ∧ tx.vin.length = base.vin.length ∧
      (∀ (i : Nat) (txin : CTxIn), base.vin[i]? = some txin →
        ∃ txin', tx.vin[i]? = some txin' ∧ txin'.prevout = txin.prevout ∧
          txin'.nSequence = txin.nSequence) ∧
      (∀ (i : Nat) (txin : CTxIn), base.vin[i]? = some txin → m.find txin.prevout = none →
        tx.vin[i]? = some txin ∧ scriptSigAt tx i = scriptSigAt base i) ∧
      (∀ (i : Nat) (txin : CTxIn) (prevPubKey : CScript), base.vin[i]? = some txin →
        m.find txin.prevout = some prevPubKey →
        scriptSigAt tx i =
          mergedScriptSig eng keystore prevPubKey nHashType txVariants (mergedUpTo base tx i) i) := by
  obtain ⟨base, m, ks, hb, hm, hk, hrun⟩ :=
    SignTransaction_ok env eng txVariants prevTxs keys nHashType _ hok
  obtain ⟨hout, hlen, hdone, _⟩ := signInputs_spec eng ks m txVariants nHashType base _ _ hrun
  refine ⟨base, m, ks, hb, hm, hk, hout, hlen, fun i txin hi => ?_, fun i txin hi hf => ?_,
    fun i txin p hi hf => ?_⟩
  · cases hf : m.find txin.prevout with
    | none =>
      exact ⟨txin, inputMerged_unresolved eng ks m nHashType txVariants base tx i txin hi hf
        (hdone i), rfl, rfl⟩
    | some p =>
      exact ⟨_, (inputMerged_resolved eng ks m nHashType txVariants base tx i txin p hi hf
        (hdone i)).2, rfl, rfl⟩
  · have hin := inputMerged_unresolved eng ks m nHashType txVariants base tx i txin hi hf (hdone i)
    exact ⟨hin, by simp [scriptSigAt, hin, hi]⟩
  · have hin := (inputMerged_resolved eng ks m nHashType txVariants base tx i txin p hi hf
      (hdone i)).2
    simp [scriptSigAt, hin]

/-- Instance for C4: `fixtureTx` signed with the wallet keeps its unresolved
second input and its output. -/
theorem C4_frame_witness :
    SignTransaction fixtureEnv fixtureEngine [fixtureTx] [] [] 1 =
      .ok (false, { fixtureTx with vin := [⟨⟨1, 0⟩, [107], 0⟩, ⟨⟨9, 0⟩, [], 0⟩] }) ∧
    ∃ base m keystore, [fixtureTx][0]? = some base ∧ resolveOutputs fixtureEnv base [] = .ok m ∧
      selectKeystore fixtureEnv [] = .ok keystore ∧
      ({ fixtureTx with vin := [⟨⟨1, 0⟩, [107], 0⟩, ⟨⟨9, 0⟩, [], 0⟩] } : CTransaction).vout =
        base.vout :=
  ⟨by decide,
    (C4_frame fixtureEnv fixtureEngine [fixtureTx] [] [] 1 false
      { fixtureTx with vin := [⟨⟨1, 0⟩, [107], 0⟩, ⟨⟨9, 0⟩, [], 0⟩] } (by decide)).imp
      fun _ hb => hb.imp fun _ hm => hm.imp fun _ hk => ⟨hk.1, hk.2.1, hk.2.2.1, hk.2.2.2.1⟩⟩

/-! ## Key source -/

theorem addKeys_ok (env : Env) (keys : List Value) (decoded : List CKey)
    (hvalid : List.Forall₂ (fun k key => ∃ s, k = Value.str s ∧ env.SetString s = some key)
      keys decoded) :
    ∀ acc : List CKey, keys.foldlM (addKey env) acc = .ok (acc ++ decoded) := by
  induction hvalid with
  | nil =>
    intro acc
    simp [pure, Except.pure]
  | @cons k key ks keys' hk _ ih =>
    intro acc
    obtain ⟨s, hs, hset⟩ := hk
    subst hs
    rw [List.foldlM_cons]
    have hstep : addKey env acc (Value.str s) = .ok (acc ++ [key]) := by
      simp [addKey, Value.get_str, hset]
    rw [hstep, ok_bind, ih]
    simp

theorem selectKeystore_given (env : Env) (keys : List Value) (decoded : List CKey)
    (hne : keys ≠ [])
    (hvalid : List.Forall₂ (fun k key => ∃ s, k = Value.str s ∧ env.SetString s = some key)
      keys decoded) :
    selectKeystore env keys = .ok (.tempKeystore decoded) := by
  have hlen : keys.length > 0 := List.length_pos.mpr hne
  simp [selectKeystore, hlen, addKeys_ok env keys decoded hvalid []]

/-- The loop reads the signer only at the key store it was given. -/
theorem signInputs_signer (eng : ScriptEngine)
    (signer : CKeyStore → CScript → CTransaction → Nat → Int → CScript)
    (ks : CKeyStore) (m : PrevOutMap) (txVariants : List CTransaction) (h : Int)
    (base : CTransaction)
    (hag : ∀ p tx i h', signer ks p tx i h' = eng.SignSignature ks p tx i h') :
    signInputs { eng with SignSignature := signer } ks m txVariants h base =
      signInputs eng ks m txVariants h base := by
  have hstep : signInput { eng with SignSignature := signer } ks m txVariants h =
      signInput eng ks m txVariants h := by
    funext st i
    unfold signInput
    simp only [hag]
    rfl
  unfold signInputs
  rw [hstep]

theorem SignTransaction_signer (env : Env) (eng : ScriptEngine)
    (signer : CKeyStore → CScript → CTransaction → Nat → Int → CScript)
    (txVariants : List CTransaction) (prevTxs keys : List Value) (h : Int) (ks : CKeyStore)
    (hks : selectKeystore env keys = .ok ks)
    (hag : ∀ p tx i h', signer ks p tx i h' = eng.SignSignature ks p tx i h') :
    SignTransaction env { eng with SignSignature := signer } txVariants prevTxs keys h =
      SignTransaction env eng txVariants prevTxs keys h := by
  unfold SignTransaction
  cases txVariants[0]? with
  | none => rfl
  | some base =>
    simp only
    cases resolveOutputs env base prevTxs with
    | error e => rfl
    | ok m =>
      simp only [hks]
      exact signInputs_signer eng signer ks m txVariants h base hag

/-- C5. Key-source selection is a switch for the whole call. With a non-empty list
of valid keys, decoded as `decoded`, the key store is the temporary store holding
`decoded` in the order given, every input is signed with it, and the result does
not depend on what the signer would do with the wallet. With an empty key list the
key store is the wallet, and the result does not depend on what the signer would do
with any other store. -/
theorem C5_key_source (env : Env) (eng : ScriptEngine) (txVariants : List CTransaction)
    (prevTxs keys : List Value) (decoded : List CKey) (nHashType : Int)
    (hne : keys ≠ [])
    (hvalid : List.Forall₂ (fun k key => ∃ s, k = Value.str s ∧ env.SetString s = some key)
      keys decoded) :
    (selectKeystore env keys = .ok (.tempKeystore decoded) ∧
      (∀ r, SignTransaction env eng txVariants prevTxs keys nHashType = .ok r →
        ∃ base m, txVariants[0]? = some base ∧ resolveOutputs env base prevTxs = .ok m ∧
          signInputs eng (.tempKeystore decoded) m txVariants nHashType base = .ok r) ∧
      (∀ signer, (∀ p tx i h, signer (.tempKeystore decoded) p tx i h =
            eng.SignSignature (.tempKeystore decoded) p tx i h) →
        SignTransaction env { eng with SignSignature := signer } txVariants prevTxs keys
          nHashType = SignTransaction env eng txVariants prevTxs keys nHashType)) ∧
    (selectKeystore env [] = .ok .pwalletMain ∧
      (∀ r, SignTransaction env eng txVariants prevTxs [] nHashType = .ok r →
        ∃ base m, txVariants[0]? = some base ∧ resolveOutputs env base prevTxs = .ok m ∧
          signInputs eng .pwalletMain m txVariants nHashType base = .ok r) ∧
      (∀ signer, (∀ p tx i h, signer .pwalletMain p tx i h =
            eng.SignSignature .pwalletMain p tx i h) →
        SignTransaction env { eng with SignSignature := signer } txVariants prevTxs []
          nHashType = SignTransaction env eng txVariants prevTxs [] nHashType)) := by
  have hsel := selectKeystore_given env keys decoded hne hvalid
  have hsel0 : selectKeystore env [] = .ok .pwalletMain := rfl
  refine ⟨⟨hsel, fun r hr => ?_, fun signer hag => ?_⟩, hsel0, fun r hr => ?_, fun signer hag => ?_⟩
  · obtain ⟨base, m, ks, hb, hm, hk, hrun⟩ :=
      SignTransaction_ok env eng txVariants prevTxs keys nHashType r hr
    rw [hsel] at hk
    cases hk
    exact ⟨base, m, hb, hm, hrun⟩
  · exact SignTransaction_signer env eng signer txVariants prevTxs keys nHashType _ hsel hag
  · obtain ⟨base, m, ks, hb, hm, hk, hrun⟩ :=
      SignTransaction_ok env eng txVariants prevTxs [] nHashType r hr
    rw [hsel0] at hk
    cases hk
    exact ⟨base, m, hb, hm, hrun⟩
  · exact SignTransaction_signer env eng signer txVariants prevTxs [] nHashType _ hsel0 hag

/-- Instance for C5: two keys given as strings. -/
theorem C5_key_source_witness :
    ([Value.str "abcdefg", Value.str "k"] ≠ []) ∧
    List.Forall₂ (fun k key => ∃ s, k = Value.str s ∧ fixtureEnv.SetString s = some key)
      [Value.str "abcdefg", Value.str "k"] [⟨7, true⟩, ⟨1, true⟩] ∧
    selectKeystore fixtureEnv [Value.str "abcdefg", Value.str "k"] =
      .ok (.tempKeystore [⟨7, true⟩, ⟨1, true⟩]) :=
  ⟨by simp,
    List.Forall₂.cons ⟨"abcdefg", rfl, rfl⟩ (List.Forall₂.cons ⟨"k", rfl, rfl⟩ List.Forall₂.nil),
    (C5_key_source fixtureEnv fixtureEngine [fixtureTx] [] [Value.str "abcdefg", Value.str "k"]
      [⟨7, true⟩, ⟨1, true⟩] 1 (by simp)
      (List.Forall₂.cons ⟨"abcdefg", rfl, rfl⟩
        (List.Forall₂.cons ⟨"k", rfl, rfl⟩ List.Forall₂.nil))).1.1⟩

/-! ## `signrawtransaction` and `refundtransaction` -/

/-- Whatever the parameters, the key list `signrawtransaction` hands to
`SignTransaction` is empty. -/
theorem signrawtransactionKeys_nil (params keys : List Value)
    (h : signrawtransactionKeys params = .ok keys) : keys = [] := by
  unfold signrawtransactionKeys at h
  split at h
  · split at h
    · cases h
    · split at h
      · cases h
      · cases h
        rfl
  · cases h
    rfl

/-- C6, at a request whose third parameter is the one-key array `["k"]`: the key
list handed to `SignTransaction` is empty, not the third parameter; the input is
signed with the wallet's key and reported complete, where signing with the given
key alone leaves it unsigned and incomplete. -/
theorem C6_keys_dropped :
    signrawtransactionKeys [.str "\x01", .array [], .array [.str "k"]] = .ok [] ∧
    signrawtransaction fixtureEnv fixtureEngine
        [.str "\x01", .array [], .array [.str "k"]] false =
      .ok (.obj [("hex", .str "\x01k"), ("complete", .bool true)]) ∧
    SignTransaction fixtureEnv fixtureEngine [⟨[⟨⟨1, 0⟩, [], 0⟩], []⟩] [] [.str "k"] 1 =
      .ok (false, ⟨[⟨⟨1, 0⟩, [], 0⟩], []⟩) ∧
    SignTransaction fixtureEnv fixtureEngine [⟨[⟨⟨1, 0⟩, [], 0⟩], []⟩] [] [] 1 =
      .ok (true, ⟨[⟨⟨1, 0⟩, [107], 0⟩], []⟩) :=
  ⟨rfl, rfl, by decide, by decide⟩

/-- The six accepted texts of the sighash parameter. -/
theorem mapFind_sigHash (env : Env) (s : String) :
    mapFind (mapSigHashValues env) s =
      if s = "ALL" then some env.SIGHASH_ALL
      else if s = "ALL|ANYONECANPAY" then some (Int.lor env.SIGHASH_ALL env.SIGHASH_ANYONECANPAY)
      else if s = "NONE" then some env.SIGHASH_NONE
      else if s = "NONE|ANYONECANPAY" then
        some (Int.lor env.SIGHASH_NONE env.SIGHASH_ANYONECANPAY)
      else if s = "SINGLE" then some env.SIGHASH_SINGLE
      else if s = "SINGLE|ANYONECANPAY" then
        some (Int.lor env.SIGHASH_SINGLE env.SIGHASH_ANYONECANPAY)
      else none := by
  simp only [mapSigHashValues, mapFind, eq_comm]

/-- C9. The sighash parameter of `signrawtransaction`: a fourth parameter that is a
string is accepted exactly when it is one of the six texts ALL, NONE, SINGLE,
ALL|ANYONECANPAY, NONE|ANYONECANPAY, SINGLE|ANYONECANPAY; each maps to its
constant, the ANYONECANPAY forms to the bitwise or of the base constant with
`SIGHASH_ANYONECANPAY`; any other string fails with "Invalid sighash param"; with
at most three parameters the hash type is `SIGHASH_ALL`. -/
theorem C9_sighash_param (env : Env) (p0 p1 p2 : Value) (s : String) :
    (signrawtransactionHashType env [p0, p1, p2, .str "ALL"] = .ok env.SIGHASH_ALL ∧
      signrawtransactionHashType env [p0, p1, p2, .str "NONE"] = .ok env.SIGHASH_NONE ∧
      signrawtransactionHashType env [p0, p1, p2, .str "SINGLE"] = .ok env.SIGHASH_SINGLE ∧
      signrawtransactionHashType env [p0, p1, p2, .str "ALL|ANYONECANPAY"] =
        .ok (Int.lor env.SIGHASH_ALL env.SIGHASH_ANYONECANPAY) ∧
      signrawtransactionHashType env [p0, p1, p2, .str "NONE|ANYONECANPAY"] =
        .ok (Int.lor env.SIGHASH_NONE env.SIGHASH_ANYONECANPAY) ∧
      signrawtransactionHashType env [p0, p1, p2, .str "SINGLE|ANYONECANPAY"] =
        .ok (Int.lor env.SIGHASH_SINGLE env.SIGHASH_ANYONECANPAY)) ∧
    ((∃ nHashType, signrawtransactionHashType env [p0, p1, p2, .str s] = .ok nHashType) ↔
      s ∈ ["ALL", "NONE", "SINGLE", "ALL|ANYONECANPAY", "NONE|ANYONECANPAY",
        "SINGLE|ANYONECANPAY"]) ∧
    (s ∉ ["ALL", "NONE", "SINGLE", "ALL|ANYONECANPAY", "NONE|ANYONECANPAY",
        "SINGLE|ANYONECANPAY"] →
      signrawtransactionHashType env [p0, p1, p2, .str s] =
        .error (.JSONRPCError (-8) "Invalid sighash param")) ∧
    signrawtransactionHashType env [p0, p1, p2] = .ok env.SIGHASH_ALL ∧
    signrawtransactionHashType env [p0, p1] = .ok env.SIGHASH_ALL ∧
    signrawtransactionHashType env [p0] = .ok env.SIGHASH_ALL := by
  have hform : ∀ t : String, signrawtransactionHashType env [p0, p1, p2, .str t] =
      match mapFind (mapSigHashValues env) t with
      | some nHashType => .ok nHashType
      | none => .error (.JSONRPCError (-8) "Invalid sighash param") := by
    intro t
    simp [signrawtransactionHashType, Value.get_str]
  refine ⟨⟨?_, ?_, ?_, ?_, ?_, ?_⟩, ?_, ?_, ?_, ?_, ?_⟩
  · rw [hform, mapFind_sigHash]; simp
  · rw [hform, mapFind_sigHash]; simp
  · rw [hform, mapFind_sigHash]; simp
  · rw [hform, mapFind_sigHash]; simp
  · rw [hform, mapFind_sigHash]; simp
  · rw [hform, mapFind_sigHash]; simp
  · rw [hform, mapFind_sigHash]
    simp only [List.mem_cons, List.mem_singleton, List.not_mem_nil, or_false]
    constructor
    · rintro ⟨v, hv⟩
      by_contra hno
      simp only [not_or] at hno
      obtain ⟨h1, h2, h3, h4, h5, h6⟩ := hno
      simp [h1, h2, h3, h4, h5, h6] at hv
    · rintro (h | h | h | h | h | h) <;> subst h <;> simp
  · intro hno
    simp only [List.mem_cons, List.mem_singleton, List.not_mem_nil, or_false, not_or] at hno
    obtain ⟨h1, h2, h3, h4, h5, h6⟩ := hno
    rw [hform, mapFind_sigHash]
    simp [h1, h2, h3, h4, h5, h6]
  · simp [signrawtransactionHashType]
  · simp [signrawtransactionHashType]
  · simp [signrawtransactionHashType]

/-- A successful `refundtransaction` returns either `false`, with nothing sent, or
the id of the signed transaction it has just sent to the network. -/
theorem refundtransaction_value (env : Env) (eng : ScriptEngine) (params : List Value)
    (fHelp : Bool) (v : Value) (effects : List Effect)
    (h : refundtransaction env eng params fHelp = .ok (v, effects)) :
    (v = .bool false ∧ effects = []) ∨
    ∃ wtxNew signedTx, SignTransaction env eng [wtxNew] [] [] env.SIGHASH_ALL =
        .ok (true, signedTx) ∧
      SendTransaction env signedTx = .ok effects ∧
      v = .str (env.GetHex (env.GetHash signedTx)) := by
  unfold refundtransaction at h
  split at h
  · cases h
  · cases hp : params[0]? with
    | none => simp [hp] at h
    | some p0 =>
      cases hs : p0.get_str with
      | error e => simp [hp, hs] at h
      | ok s =>
        cases hw : env.mapWallet (env.SetHex s) with
        | none => simp [hp, hs, hw] at h
        | some wtx =>
          cases hb : buildRefund env params (env.SetHex s) wtx with
          | error e => simp [hp, hs, hw, hb] at h
          | ok built =>
            cases built with
            | none =>
              simp only [hp, hs, hw, hb, Except.ok.injEq, Prod.mk.injEq] at h
              exact Or.inl ⟨h.1.symm, h.2.symm⟩
            | some wtxNew =>
              cases hsign : SignTransaction env eng [wtxNew] [] [] env.SIGHASH_ALL with
              | error e => simp [hp, hs, hw, hb, hsign] at h
              | ok pair =>
                obtain ⟨c, t⟩ := pair
                cases c with
                | false =>
                  simp only [hp, hs, hw, hb, hsign, Bool.false_eq_true, if_false,
                    Except.ok.injEq, Prod.mk.injEq] at h
                  exact Or.inl ⟨h.1.symm, h.2.symm⟩
                | true =>
                  cases hsend : SendTransaction env t with
                  | error e => simp [hp, hs, hw, hb, hsign, hsend] at h
                  | ok effects' =>
                    simp only [hp, hs, hw, hb, hsign, hsend, if_true, Except.ok.injEq,
                      Prod.mk.injEq] at h
                    refine Or.inr ⟨wtxNew, t, hsign, ?_, h.1.symm⟩
                    rw [← h.2]
                    exact hsend

/-- C10, at the wallet transaction 2 refunded to the address "xyz": the refund
transaction built from the wallet-owned output is unsigned, yet the call signs it,
sends it to the network and returns the id of the signed transaction, not the
unsigned raw transaction; and where the source of an in-wallet transaction cannot
be found the call throws instead of returning `false`. -/
theorem C10_refund_returns_txid :
    buildRefund fixtureEnv [.str "ab", .str "xyz"] 2
        ⟨[⟨⟨5, 0⟩, [], 0⟩], [⟨30, [7]⟩, ⟨12, [8]⟩]⟩ =
      .ok (some ⟨[⟨⟨2, 0⟩, [], 4294967295⟩], [⟨30, [3]⟩]⟩) ∧
    refundtransaction fixtureEnv fixtureEngine [.str "ab", .str "xyz"] false =
      .ok (.str (fixtureEnv.GetHex (fixtureEnv.GetHash
          ⟨[⟨⟨2, 0⟩, [107], 4294967295⟩], [⟨30, [3]⟩]⟩)),
        [.AcceptToMemoryPool ⟨[⟨⟨2, 0⟩, [107], 4294967295⟩], [⟨30, [3]⟩]⟩,
          .SyncWithWallets ⟨[⟨⟨2, 0⟩, [107], 4294967295⟩], [⟨30, [3]⟩]⟩,
          .RelayMessage 3 ⟨[⟨⟨2, 0⟩, [107], 4294967295⟩], [⟨30, [3]⟩]⟩]) ∧
    fixtureEnv.GetHex (fixtureEnv.GetHash ⟨[⟨⟨2, 0⟩, [107], 4294967295⟩], [⟨30, [3]⟩]⟩) ≠
      fixtureEnv.HexStr (fixtureEnv.Serialize ⟨[⟨⟨2, 0⟩, [], 4294967295⟩], [⟨30, [3]⟩]⟩) ∧
    refundtransaction fixtureEnv fixtureEngine [.str "ab"] false =
      .error (.JSONRPCError (-5) "No information available about transaction") :=
  ⟨by decide, rfl, by decide, rfl⟩

/-! ## Signing without a matching key -/

/-- C7 as stated fails: the signer finds no key and combining an empty scriptSig
with a candidate yields the candidate, yet a variant that already carries an
accepted signature comes back complete; so it is with a signer that never signs,
and with the single-key engine given the one key "k", which does not match. -/
theorem C7_counterexample :
    (∀ ks p t i h, noKeyEngine.SignSignature ks p t i h = []) ∧
    (∀ p t i c, noKeyEngine.CombineSignatures p t i [] c = c) ∧
    SignTransaction fixtureEnv noKeyEngine [⟨[⟨⟨1, 0⟩, [107], 0⟩], []⟩] [] [.str "k"] 1 =
      .ok (true, ⟨[⟨⟨1, 0⟩, [107], 0⟩], []⟩) ∧
    fixtureEngine.SignSignature (.tempKeystore [⟨1, true⟩]) [7]
      (setScriptSig ⟨[⟨⟨1, 0⟩, [107], 0⟩], []⟩ 0 []) 0 1 = [] ∧
    (∀ p t i c, fixtureEngine.CombineSignatures p t i [] c = c) ∧
    SignTransaction fixtureEnv fixtureEngine [⟨[⟨⟨1, 0⟩, [107], 0⟩], []⟩] [] [.str "k"] 1 =
      .ok (true, ⟨[⟨⟨1, 0⟩, [107], 0⟩], []⟩) :=
  ⟨fun _ _ _ _ _ => rfl, fun _ _ _ _ => rfl, by decide, rfl, fun _ _ _ _ => rfl, by decide⟩

theorem mergedScriptSig_no_key (eng : ScriptEngine) (ks : CKeyStore) (p : CScript) (h : Int)
    (base : CTransaction) (rest : List CTransaction) (ctx : CTransaction) (i : Nat)
    (hsign : eng.SignSignature ks p (setScriptSig ctx i []) i h = [])
    (hcomb : ∀ q t j c, eng.CombineSignatures q t j [] c = c) :
    mergedScriptSig eng ks p h (base :: rest) ctx i =
      foldCandidates (combineAt eng p ctx i) (variantSigs (base :: rest) i) := by
  simp [mergedScriptSig, foldCandidates, freshScriptSig, variantSigs, hsign, combineAt, hcomb]

/-- C7, amended. When the key source of the call has no matching key for any
input (for every resolved input, the signer, given the key store of the call,
leaves an empty scriptSig once the one in place is cleared) and combining an empty
scriptSig with a candidate yields the candidate, a non-failing call returns, at
every unresolved input, the input of the first variant; at every resolved input,
the merge of the scriptSigs the variants carry there; with a single variant, that
variant unchanged; and the flag is the conjunction over the inputs of "resolved and
accepted by the verifier", hence false as soon as one input is unresolved or
rejected. -/
theorem C7_no_matching_key (env : Env) (eng : ScriptEngine)
    (txVariants : List CTransaction) (prevTxs keys : List Value) (nHashType : Int)
    (fComplete : Bool) (tx : CTransaction)
    (hok : SignTransaction env eng txVariants prevTxs keys nHashType = .ok (fComplete, tx))
    (hsign : ∀ base m keystore, txVariants[0]? = some base →
      resolveOutputs env base prevTxs = .ok m → selectKeystore env keys = .ok keystore →
      ∀ (i : Nat) (txin : CTxIn) (p : CScript), base.vin[i]? = some txin →
        m.find txin.prevout = some p →
        eng.SignSignature keystore p (setScriptSig (mergedUpTo base tx i) i []) i nHashType = [])
    (hcomb : ∀ q t j c, eng.CombineSignatures q t j [] c = c) :
    ∃ base m, txVariants[0]? = some base ∧ resolveOutputs env base prevTxs = .ok m ∧
      (∀ (i : Nat) (txin : CTxIn), base.vin[i]? = some txin → m.find txin.prevout = none →
        tx.vin[i]? = some txin) ∧
      (∀ (i : Nat) (txin : CTxIn) (p : CScript), base.vin[i]? = some txin →
        m.find txin.prevout = some p →
        scriptSigAt tx i =
          foldCandidates (combineAt eng p (mergedUpTo base tx i) i) (variantSigs txVariants i)) ∧
      (txVariants = [base] → tx = base) ∧
      fComplete = (List.range base.vin.length).all (inputVerified eng m base tx) ∧
      ((∃ i, i < base.vin.length ∧ inputVerified eng m base tx i = false) →
        fComplete = false) := by
  obtain ⟨base, m, ks, hb, hm, hk, hrun⟩ :=
    SignTransaction_ok env eng txVariants prevTxs keys nHashType _ hok
  obtain ⟨hout, hlen, hdone, hc⟩ := signInputs_spec eng ks m txVariants nHashType base _ _ hrun
  obtain ⟨rest, hvs⟩ : ∃ rest, txVariants = base :: rest := by
    cases txVariants with
    | nil => simp at hb
    | cons v vs =>
      simp only [List.getElem?_cons_zero, Option.some.injEq] at hb
      exact ⟨vs, by rw [hb]⟩
  have hres : ∀ (i : Nat) (txin : CTxIn) (p : CScript), base.vin[i]? = some txin →
      m.find txin.prevout = some p →
      tx.vin[i]? = some { txin with scriptSig :=
        (foldCandidates (combineAt eng p (mergedUpTo base tx i) i) (variantSigs txVariants i)) } := by
    intro i txin p hi hf
    have hin := (inputMerged_resolved eng ks m nHashType txVariants base tx i txin p hi hf
      (hdone i)).2
    rw [hvs] at hin ⊢
    have hfresh := hsign base m ks hb hm hk i txin p hi hf
    rw [mergedScriptSig_no_key eng ks p nHashType base rest _ i hfresh hcomb] at hin
    exact hin
  have hunres : ∀ (i : Nat) (txin : CTxIn), base.vin[i]? = some txin →
      m.find txin.prevout = none → tx.vin[i]? = some txin :=
    fun i txin hi hf =>
      inputMerged_unresolved eng ks m nHashType txVariants base tx i txin hi hf (hdone i)
  refine ⟨base, m, hb, hm, hunres, fun i txin p hi hf => ?_, fun hone => ?_, hc, ?_⟩
  · simp [scriptSigAt, hres i txin p hi hf]
  · apply tx_ext_getElem? _ _ hout
    intro j
    cases hj : base.vin[j]? with
    | none =>
      have hge : base.vin.length ≤ j := by
        by_contra hlt
        rw [List.getElem?_eq_getElem (Nat.lt_of_not_le hlt)] at hj
        cases hj
      exact List.getElem?_eq_none (by omega)
    | some txin =>
      cases hf : m.find txin.prevout with
      | none => exact hunres j txin hj hf
      | some p =>
        rw [hres j txin p hj hf, hone]
        simp [variantSigs, foldCandidates, scriptSigAt, hj]
  · rintro ⟨i, hi, hfalse⟩
    rw [hc]
    apply Bool.eq_false_iff.mpr
    intro hall
    have := List.all_eq_true.mp hall i (List.mem_range.mpr hi)
    rw [hfalse] at this
    cases this

/-- Instance for C7: `fixtureTx` signed by the single-key engine with the one key
"k", which matches no input, comes back unchanged and incomplete. -/
theorem C7_no_matching_key_witness :
    SignTransaction fixtureEnv fixtureEngine [fixtureTx] [] [.str "k"] 1 =
      .ok (false, fixtureTx) ∧
    (∀ q t j c, fixtureEngine.CombineSignatures q t j [] c = c) ∧
    ∃ base m, [fixtureTx][0]? = some base ∧ resolveOutputs fixtureEnv base [] = .ok m ∧
      ([fixtureTx] = [base] → fixtureTx = base) :=
  ⟨by decide, fun _ _ _ _ => rfl,
    (C7_no_matching_key fixtureEnv fixtureEngine [fixtureTx] [] [.str "k"] 1 false fixtureTx
      (by decide)
      (by
        intro base m keystore hb hm hk i txin p _ hf
        have hm' : resolveOutputs fixtureEnv fixtureTx [] = .ok [(⟨1, 0⟩, [7])] := by decide
        have hk' : selectKeystore fixtureEnv [.str "k"] = .ok (.tempKeystore [⟨1, true⟩]) := by
          decide
        simp only [List.getElem?_cons_zero, Option.some.injEq] at hb
        subst hb
        rw [hm'] at hm
        rw [hk'] at hk
        cases hm
        cases hk
        have hp : p = [7] := by
          simp only [PrevOutMap.find] at hf
          split at hf
          · exact (Option.some.inj hf).symm
          · cases hf
        subst hp
        rfl)
      (fun _ _ _ _ => rfl)).imp
      fun _ hb => hb.imp fun _ hm => ⟨hm.1, hm.2.1, hm.2.2.2.2.1⟩⟩

/-! ## Two signing rounds against one -/

theorem SignTransaction_eq (env : Env) (eng : ScriptEngine) (txVariants : List CTransaction)
    (prevTxs keys : List Value) (h : Int) (base : CTransaction) (m : PrevOutMap)
    (ks : CKeyStore) (hb : txVariants[0]? = some base)
    (hm : resolveOutputs env base prevTxs = .ok m) (hk : selectKeystore env keys = .ok ks) :
    SignTransaction env eng txVariants prevTxs keys h =
      signInputs eng ks m txVariants h base := by
  unfold SignTransaction
  simp only [hb, hm, hk]

/-- The signing loop returns as soon as every variant has the resolved inputs. -/
theorem signRange_total (eng : ScriptEngine) (ks : CKeyStore) (m : PrevOutMap)
    (txVariants : List CTransaction) (h : Int) (base : CTransaction)
    (hrange : ∀ (j : Nat) (txin : CTxIn) (p : CScript), base.vin[j]? = some txin →
      m.find txin.prevout = some p → ∀ v ∈ txVariants, j < v.vin.length) :
    ∀ k : Nat, k ≤ base.vin.length → ∃ c t,
      (List.range k).foldlM (signInput eng ks m txVariants h) (true, base) = .ok (c, t) := by
  intro k
  induction k with
  | zero =>
    intro _
    exact ⟨true, base, rfl⟩
  | succ k ih =>
    intro hk
    obtain ⟨c, t, hprev⟩ := ih (Nat.le_of_succ_le hk)
    obtain ⟨_, _, hrest, _, _⟩ :=
      signRange_spec eng ks m txVariants h base k (Nat.le_of_succ_le hk) c t hprev
    have hklt : k < base.vin.length := hk
    have hbase : base.vin[k]? = some base.vin[k] := List.getElem?_eq_getElem hklt
    have hin : t.vin[k]? = some base.vin[k] := by rw [hrest k (Nat.le_refl k), hbase]
    rw [foldlM_range_succ, hprev]
    simp only
    rw [signInput_eq eng ks m txVariants h c t k _ hin]
    cases hf : m.find (base.vin[k]).prevout with
    | none => exact ⟨_, _, rfl⟩
    | some p =>
      simp only
      rw [if_pos (hrange k _ p hbase hf)]
      exact ⟨_, _, rfl⟩

theorem signInputs_total (eng : ScriptEngine) (ks : CKeyStore) (m : PrevOutMap)
    (txVariants : List CTransaction) (h : Int) (base : CTransaction)
    (hrange : ∀ (j : Nat) (txin : CTxIn) (p : CScript), base.vin[j]? = some txin →
      m.find txin.prevout = some p → ∀ v ∈ txVariants, j < v.vin.length) :
    ∃ c t, signInputs eng ks m txVariants h base = .ok (c, t) :=
  signRange_total eng ks m txVariants h base hrange base.vin.length (Nat.le_refl _)

theorem foldl_comb_shift (comb : CScript → CScript → CScript)
    (hcomm : ∀ a b, comb a b = comb b a)
    (hassoc : ∀ a b c, comb (comb a b) c = comb a (comb b c))
    (hidem : ∀ a, comb a a = a) (sigs : List CScript) :
    ∀ sA sB : CScript,
      comb (sigs.foldl comb sB) (sigs.foldl comb sA) = sigs.foldl comb (comb sA sB) := by
  induction sigs with
  | nil =>
    intro sA sB
    exact hcomm sB sA
  | cons v vs ih =>
    intro sA sB
    simp only [List.foldl_cons]
    rw [ih (comb sA v) (comb sB v)]
    have : comb (comb sA v) (comb sB v) = comb (comb sA sB) v := by
      rw [hassoc sA v (comb sB v), ← hassoc v sB v, hcomm v sB, hassoc sB v v, hidem v,
        ← hassoc sA sB v]
    rw [this]

theorem foldl_good (G : CScript → Prop) (comb : CScript → CScript → CScript)
    (hclosed : ∀ a b, G a → G b → G (comb a b)) (sigs : List CScript) :
    ∀ acc : CScript, G acc → (∀ s ∈ sigs, G s) → G (sigs.foldl comb acc) := by
  induction sigs with
  | nil =>
    intro acc hacc _
    exact hacc
  | cons v vs ih =>
    intro acc hacc hs
    exact ih (comb acc v) (hclosed acc v hacc (hs v (List.mem_cons_self v vs)))
      (fun s hsm => hs s (List.mem_cons_of_mem v hsm))

theorem OrderIndependent.on_all (eng : ScriptEngine) (hind : OrderIndependent eng) :
    OrderIndependentOn eng (fun _ _ => True) :=
  { sign_skeleton := hind.sign_skeleton
    combine_skeleton := hind.combine_skeleton
    sign_good := fun _ _ _ _ _ => trivial
    combine_good := fun _ _ _ _ _ _ _ => trivial
    combine_comm := fun p t i a b _ _ => hind.combine_comm p t i a b
    combine_assoc := fun p t i a b c _ _ _ => hind.combine_assoc p t i a b c
    combine_idem := fun p t i a _ => hind.combine_idem p t i a }

theorem unspentEntry_ok (env : Env) (w : WalletView) (out : COutput)
    (hwf : WellFormedOutput w out) : ∃ entry, unspentEntry env w out = .ok entry := by
  obtain ⟨txout, hv, hp2sh⟩ := hwf
  have hred : ∃ redeem, redeemScriptMember env w txout.scriptPubKey = .ok redeem := by
    unfold redeemScriptMember
    cases hp : w.IsPayToScriptHash txout.scriptPubKey with
    | false => exact ⟨[], by simp⟩
    | true =>
      cases hd : w.ExtractDestination txout.scriptPubKey with
      | none => exact ⟨[], by simp⟩
      | some address =>
        obtain ⟨hash, hh⟩ := hp2sh hp address hd
        subst hh
        cases hg : w.GetCScript hash with
        | none => exact ⟨[], by simp [hg]⟩
        | some redeemScript =>
          exact ⟨[("redeemScript", .str (env.HexStr redeemScript))], by simp [hg]⟩
  obtain ⟨redeem, hr⟩ := hred
  unfold unspentEntry
  simp only [hv, hr]
  exact ⟨_, rfl⟩

/-- One round of the loop over the outputs, in closed form. -/
theorem listunspentOutput_eq (env : Env) (w : WalletView) (nMinDepth nMaxDepth : Int)
    (setAddress : List CBitcoinAddress) (results : List Value) (out : COutput) (entry : Value)
    (hwf : WellFormedOutput w out) (hentry : unspentEntry env w out = .ok entry) :
    listunspentOutput env w nMinDepth nMaxDepth setAddress results out =
      if qualifies w nMinDepth nMaxDepth setAddress out = true then .ok (results ++ [entry])
      else .ok results := by
  obtain ⟨txout, hv, _⟩ := hwf
  unfold listunspentOutput qualifies depthInRange paysToFilter
  simp only [hentry, hv]
  by_cases hlo : out.nDepth < nMinDepth
  · have : ¬ nMinDepth ≤ out.nDepth := not_le.mpr hlo
    simp [hlo, this]
  · by_cases hhi : out.nDepth > nMaxDepth
    · have : ¬ out.nDepth ≤ nMaxDepth := not_le.mpr hhi
      simp [hhi, this]
    · have h1 : nMinDepth ≤ out.nDepth := not_lt.mp hlo
      have h2 : out.nDepth ≤ nMaxDepth := not_lt.mp hhi
      cases setAddress with
      | nil => simp [hlo, hhi, h1, h2]
      | cons a rest =>
        cases hd : w.ExtractDestination txout.scriptPubKey with
        | none => simp [hlo, hhi, h1, h2]
        | some address =>
          by_cases hmem : w.FromDestination address ∈ a :: rest
          · simp [hlo, hhi, h1, h2, hmem]
          · simp [hlo, hhi, h1, h2, hmem]

/-- The loop over the outputs, in closed form: one entry for each qualifying
output, in the order of the outputs. -/
theorem listunspentOutputs_spec (env : Env) (w : WalletView) (nMinDepth nMaxDepth : Int)
    (setAddress : List CBitcoinAddress) (outs : List COutput)
    (hwf : ∀ out ∈ outs, WellFormedOutput w out) :
    ∀ results : List Value, ∃ entries,
      outs.foldlM (listunspentOutput env w nMinDepth nMaxDepth setAddress) results =
        .ok (results ++ entries) ∧
      List.Forall₂ (fun out entry => unspentEntry env w out = .ok entry)
        (outs.filter (qualifies w nMinDepth nMaxDepth setAddress)) entries := by
  induction outs with
  | nil =>
    intro results
    exact ⟨[], by simp [pure, Except.pure], List.Forall₂.nil⟩
  | cons out rest ih =>
    intro results
    have hout := hwf out (List.mem_cons_self out rest)
    obtain ⟨entry, hentry⟩ := unspentEntry_ok env w out hout
    have ih' := ih (fun o ho => hwf o (List.mem_cons_of_mem out ho))
    rw [List.foldlM_cons,
      listunspentOutput_eq env w nMinDepth nMaxDepth setAddress results out entry hout hentry]
    by_cases hq : qualifies w nMinDepth nMaxDepth setAddress out = true
    · obtain ⟨entries, hrun, hrel⟩ := ih' (results ++ [entry])
      refine ⟨entry :: entries, ?_, ?_⟩
      · rw [if_pos hq, ok_bind, hrun]
        simp
      · rw [List.filter_cons_of_pos hq]
        exact List.Forall₂.cons hentry hrel
    · obtain ⟨entries, hrun, hrel⟩ := ih' results
      refine ⟨entries, ?_, ?_⟩
      · rw [if_neg hq, ok_bind, hrun]
      · rw [List.filter_cons_of_neg hq]
        exact hrel

/-- Valid, pairwise different addresses are all taken into the set, in order. -/
theorem addAddresses_ok (w : WalletView) (strs : List String) :
    ∀ acc : List CBitcoinAddress, (∀ s ∈ strs, w.IsValid (w.FromString s) = true) →
      (strs.map w.FromString).Nodup → (∀ s ∈ strs, w.FromString s ∉ acc) →
      (strs.map Value.str).foldlM (addAddress w) acc = .ok (acc ++ strs.map w.FromString) := by
  induction strs with
  | nil =>
    intro acc _ _ _
    simp [pure, Except.pure]
  | cons s rest ih =>
    intro acc hvalid hnodup hfresh
    have hv := hvalid s (List.mem_cons_self s rest)
    have hf := hfresh s (List.mem_cons_self s rest)
    simp only [List.map_cons, List.nodup_cons] at hnodup
    have hstep : addAddress w acc (Value.str s) = .ok (acc ++ [w.FromString s]) := by
      simp [addAddress, Value.get_str, hv, hf]
    rw [List.map_cons, List.foldlM_cons, hstep, ok_bind,
      ih (acc ++ [w.FromString s]) (fun t ht => hvalid t (List.mem_cons_of_mem s ht)) hnodup.2]
    · simp
    · intro t ht hmem
      rcases List.mem_append.mp hmem with h | h
      · exact hfresh t (List.mem_cons_of_mem s ht) h
      · rw [List.mem_singleton] at h
        exact hnodup.1 (h ▸ List.mem_map_of_mem w.FromString ht)

/-- A list in which an address comes twice, or comes again after it was taken
into the set, is rejected. -/
theorem addAddresses_duplicate (w : WalletView) (strs : List String) :
    ∀ acc : List CBitcoinAddress,
      (¬ (strs.map w.FromString).Nodup ∨ ∃ s ∈ strs, w.FromString s ∈ acc) →
      ∃ e, (strs.map Value.str).foldlM (addAddress w) acc = .error e := by
  induction strs with
  | nil =>
    intro acc h
    rcases h with h | ⟨s, hs, _⟩
    · exact absurd List.nodup_nil h
    · cases hs
  | cons s rest ih =>
    intro acc h
    rw [List.map_cons, List.foldlM_cons]
    by_cases hv : w.IsValid (w.FromString s) = true
    · by_cases hm : w.FromString s ∈ acc
      · exact ⟨_, by simp [addAddress, Value.get_str, hv, hm]; rfl⟩
      · have hstep : addAddress w acc (Value.str s) = .ok (acc ++ [w.FromString s]) := by
          simp [addAddress, Value.get_str, hv, hm]
        rw [hstep, ok_bind]
        apply ih
        rcases h with h | ⟨t, ht, hmem⟩
        · simp only [List.map_cons, List.nodup_cons, not_and_or, not_not] at h
          rcases h with h | h
          · obtain ⟨t, ht, heq⟩ := List.mem_map.mp h
            exact Or.inr ⟨t, ht, by rw [heq]; simp⟩
          · exact Or.inl h
        · rcases List.mem_cons.mp ht with heq | ht'
          · subst heq
            exact absurd hmem hm
          · exact Or.inr ⟨t, ht', List.mem_append_left _ hmem⟩
    · exact ⟨_, by simp [addAddress, Value.get_str, hv]; rfl⟩

theorem listunspentAddresses_three (w : WalletView) (p q : Value) (inputs : List Value) :
    listunspentAddresses w [p, q, .array inputs] = inputs.foldlM (addAddress w) [] := by
  simp [listunspentAddresses, Value.get_array]

theorem listunspent_error_of_addresses (env : Env) (w : WalletView) (params : List Value)
    (fHelp : Bool) (e : Failure) (h : listunspentAddresses w params = .error e) :
    ∃ e', listunspent env w params fHelp = .error e' := by
  unfold listunspent
  split
  · exact ⟨_, rfl⟩
  · cases env.RPCTypeCheckParams params [.int_type, .int_type, .array_type] with
    | error e1 => exact ⟨e1, rfl⟩
    | ok _ =>
      cases listunspentMinDepth params with
      | error e2 => exact ⟨e2, rfl⟩
      | ok nMinDepth =>
        cases listunspentMaxDepth params with
        | error e3 => exact ⟨e3, rfl⟩
        | ok nMaxDepth =>
          simp only [h]
          exact ⟨e, rfl⟩

/-- C11. When the parameters are read without error as the bounds `nMinDepth`,
`nMaxDepth` and the address set `setAddress`, and the wallet's available outputs
are well formed, `listunspent` returns an array with exactly one entry for each
available output that qualifies, in the wallet's order, an entry starting with the
transaction id and the index of its output; an output qualifies when
`nMinDepth <= nDepth <= nMaxDepth` and, for a non-empty set, its script yields a
destination whose address is in the set. The bounds default to 1 and 9999999, the
set to the empty one; a list of valid, pairwise different addresses is the set; a
list with a duplicated address is rejected. -/
theorem C11_listunspent (env : Env) (w : WalletView) (params : List Value)
    (nMinDepth nMaxDepth : Int) (setAddress : List CBitcoinAddress)
    (hsize : params.length ≤ 3)
    (htype : env.RPCTypeCheckParams params [.int_type, .int_type, .array_type] = .ok ())
    (hmin : listunspentMinDepth params = .ok nMinDepth)
    (hmax : listunspentMaxDepth params = .ok nMaxDepth)
    (hset : listunspentAddresses w params = .ok setAddress)
    (hwf : ∀ out ∈ w.AvailableCoins, WellFormedOutput w out) :
    (∃ entries, listunspent env w params false = .ok (.array entries) ∧
      List.Forall₂ (fun out entry => unspentEntry env w out = .ok entry)
        (w.AvailableCoins.filter (qualifies w nMinDepth nMaxDepth setAddress)) entries) ∧
    (∀ out, qualifies w nMinDepth nMaxDepth setAddress out = true ↔
      (nMinDepth ≤ out.nDepth ∧ out.nDepth ≤ nMaxDepth) ∧
      (setAddress = [] ∨ ∃ txout address, voutAt out = some txout ∧
        w.ExtractDestination txout.scriptPubKey = some address ∧
        w.FromDestination address ∈ setAddress)) ∧
    (∀ out entry, unspentEntry env w out = .ok entry →
      ∃ members, entry = .obj (("txid", .str (env.GetHex (env.GetHash out.tx))) ::
        ("vout", .int out.i) :: members)) ∧
    (listunspentMinDepth [] = .ok 1 ∧ listunspentMaxDepth [] = .ok 9999999 ∧
      listunspentAddresses w [] = .ok [] ∧
      (∀ a, listunspentMinDepth [.int a] = .ok (toInt32 a) ∧
        listunspentMaxDepth [.int a] = .ok 9999999 ∧ listunspentAddresses w [.int a] = .ok []) ∧
      (∀ a b, listunspentMinDepth [.int a, .int b] = .ok (toInt32 a) ∧
        listunspentMaxDepth [.int a, .int b] = .ok (toInt32 b) ∧
        listunspentAddresses w [.int a, .int b] = .ok [])) ∧
    (∀ (p q : Value) (strs : List String), (∀ s ∈ strs, w.IsValid (w.FromString s) = true) →
      (strs.map w.FromString).Nodup →
      listunspentAddresses w [p, q, .array (strs.map .str)] = .ok (strs.map w.FromString)) ∧
    (∀ (p q : Value) (strs : List String) (fHelp : Bool), ¬ (strs.map w.FromString).Nodup →
      (∃ e, listunspentAddresses w [p, q, .array (strs.map .str)] = .error e) ∧
      ∃ e, listunspent env w [p, q, .array (strs.map .str)] fHelp = .error e) := by
  refine ⟨?_, ?_, ?_, ?_, ?_, ?_⟩
  · obtain ⟨entries, hrun, hrel⟩ :=
      listunspentOutputs_spec env w nMinDepth nMaxDepth setAddress w.AvailableCoins hwf []
    refine ⟨entries, ?_, hrel⟩
    have hlen : ¬ params.length > 3 := Nat.not_lt.mpr hsize
    simp only [listunspent, hlen, htype, hmin, hmax, hset, hrun]
    simp
  · intro out
    unfold qualifies depthInRange paysToFilter
    cases setAddress with
    | nil => simp
    | cons a rest =>
      cases hv : voutAt out with
      | none => simp
      | some txout =>
        cases hd : w.ExtractDestination txout.scriptPubKey with
        | none => simp [hd]
        | some address => simp [hd]
  · intro out entry h
    unfold unspentEntry at h
    cases hv : voutAt out with
    | none => simp [hv] at h
    | some txout =>
      cases hr : redeemScriptMember env w txout.scriptPubKey with
      | error e => simp [hv, hr] at h
      | ok redeem =>
        simp only [hv, hr, Except.ok.injEq] at h
        exact ⟨_, by rw [← h]; rfl⟩
  · refine ⟨rfl, rfl, rfl, fun a => ⟨rfl, rfl, rfl⟩, fun a b => ⟨rfl, rfl, rfl⟩⟩
  · intro p q strs hvalid hnodup
    rw [listunspentAddresses_three, addAddresses_ok w strs [] hvalid hnodup (by simp)]
    simp
  · intro p q strs fHelp hdup
    obtain ⟨e, he⟩ := addAddresses_duplicate w strs [] (Or.inl hdup)
    have he' : listunspentAddresses w [p, q, .array (strs.map .str)] = .error e := by
      rw [listunspentAddresses_three]
      exact he
    exact ⟨⟨e, he'⟩, listunspent_error_of_addresses env w _ fHelp e he'⟩

/-- Instance for C11: depths between 1 and 5 with the filter "abcdefg" keep the
first of the three outputs of `fixtureWallet`. -/
theorem C11_listunspent_witness :
    ([Value.int 1, Value.int 5, Value.array [.str "abcdefg"]].length ≤ 3) ∧
    listunspentMinDepth [.int 1, .int 5, .array [.str "abcdefg"]] = .ok 1 ∧
    listunspentMaxDepth [.int 1, .int 5, .array [.str "abcdefg"]] = .ok 5 ∧
    listunspentAddresses fixtureWallet [.int 1, .int 5, .array [.str "abcdefg"]] = .ok [7] ∧
    (∀ out ∈ fixtureWallet.AvailableCoins, WellFormedOutput fixtureWallet out) ∧
    fixtureWallet.AvailableCoins.filter (qualifies fixtureWallet 1 5 [7]) =
      [⟨⟨[], [⟨30, [7]⟩, ⟨12, [8]⟩]⟩, 0, 3⟩] ∧
    ∃ entries, listunspent fixtureEnv fixtureWallet
        [.int 1, .int 5, .array [.str "abcdefg"]] false = .ok (.array entries) ∧
      List.Forall₂ (fun out entry => unspentEntry fixtureEnv fixtureWallet out = .ok entry)
        (fixtureWallet.AvailableCoins.filter (qualifies fixtureWallet 1 5 [7])) entries :=
  have hwf : ∀ out ∈ fixtureWallet.AvailableCoins, WellFormedOutput fixtureWallet out := by
    intro out hout
    simp only [fixtureWallet, List.mem_cons, List.mem_singleton, List.not_mem_nil, or_false] at hout
    rcases hout with h | h | h <;> subst h
    · exact ⟨⟨30, [7]⟩, rfl, fun hp => by cases hp⟩
    · exact ⟨⟨12, [8]⟩, rfl, fun hp => by cases hp⟩
    · exact ⟨⟨5, [9]⟩, rfl, fun hp => by cases hp⟩
  ⟨by decide, rfl, rfl, rfl, hwf, by decide,
    (C11_listunspent fixtureEnv fixtureWallet [.int 1, .int 5, .array [.str "abcdefg"]] 1 5 [7]
      (by decide) rfl rfl rfl rfl hwf).1⟩

/-! ## Positional merging stays in range -/

theorem bind_eq_ok {α β : Type} (x : Except Failure α) (f : α → Except Failure β) (b : β) :
    (x >>= f) = .ok b ↔ ∃ a, x = .ok a ∧ f a = .ok b := by
  cases x with
  | error e => simp [error_bind]
  | ok a => simp [ok_bind]

/-- Every result of `signrawtransaction` comes from a call of `SignTransaction` on a
non-empty list that returned. -/
theorem signrawtransaction_variants (env : Env) (eng : ScriptEngine) (params : List Value)
    (fHelp : Bool) (v : Value) (h : signrawtransaction env eng params fHelp = .ok v) :
    ∃ base rest prevTxs keys nHashType r,
      SignTransaction env eng (base :: rest) prevTxs keys nHashType = .ok r := by
  unfold signrawtransaction at h
  by_cases hhelp : (fHelp || decide (params.length < 1) || decide (params.length > 4)) = true
  · rw [if_pos hhelp] at h
    cases h
  · rw [if_neg hhelp] at h
    have tail : ∀ txVariants : List CTransaction,
        (if txVariants.isEmpty = true then
          (throw (Failure.JSONRPCError (-22) "Missing transaction") : Except Failure PUnit) >>=
            fun _ => signrawtransactionPrevTxs params >>= fun prevTxs =>
              signrawtransactionKeys params >>= fun keys =>
              signrawtransactionHashType env params >>= fun nHashType =>
              SignTransaction env eng txVariants prevTxs keys nHashType >>= fun signResult =>
              pure (Value.obj [("hex", Value.str (env.HexStr (env.Serialize signResult.2))),
                ("complete", Value.bool signResult.1)])
        else
          (pure PUnit.unit : Except Failure PUnit) >>=
            fun _ => signrawtransactionPrevTxs params >>= fun prevTxs =>
              signrawtransactionKeys params >>= fun keys =>
              signrawtransactionHashType env params >>= fun nHashType =>
              SignTransaction env eng txVariants prevTxs keys nHashType >>= fun signResult =>
              pure (Value.obj [("hex", Value.str (env.HexStr (env.Serialize signResult.2))),
                ("complete", Value.bool signResult.1)])) = .ok v →
        ∃ base rest prevTxs keys nHashType r,
          SignTransaction env eng (base :: rest) prevTxs keys nHashType = .ok r := by
      intro txVariants ht
      cases txVariants with
      | nil =>
        simp only [List.isEmpty_nil, if_true] at ht
        cases ht
      | cons base rest =>
        simp only [List.isEmpty_cons, Bool.false_eq_true, if_false] at ht
        simp only [bind_eq_ok] at ht
        obtain ⟨_, _, prevTxs, _, keys, _, nHashType, _, r, hsign, _⟩ := ht
        exact ⟨base, rest, prevTxs, keys, nHashType, r, hsign⟩
    dsimp only at h
    split at h <;>
    · simp only [bind_eq_ok] at h
      obtain ⟨_, _, _, _, h⟩ := h
      split at h <;>
      · simp only [bind_eq_ok] at h
        obtain ⟨_, _, txVariants, _, h⟩ := h
        exact tail txVariants h

/-- The guard of lines 478-479: when the stream decodes to no transaction,
`signrawtransaction` answers "Missing transaction" and does not call
`SignTransaction`; when it decodes to the list `base :: rest`, that list is the one
handed to `SignTransaction`. -/
theorem signrawtransaction_guard (env : Env) (eng : ScriptEngine) (params : List Value)
    (fHelp : Bool) (strHex : String) (txVariants : List CTransaction)
    (hhelp : ¬ (fHelp || decide (params.length < 1) || decide (params.length > 4)) = true)
    (hwallet : params.length < 3 → env.EnsureWalletIsUnlocked = .ok ())
    (htype : env.RPCTypeCheckParams params [.str_type, .array_type, .array_type] = .ok ())
    (hp0 : params[0]? = some (.str strHex))
    (hread : readVariants env (env.ParseHex strHex).length (env.ParseHex strHex) =
      .ok txVariants) :
    (txVariants = [] → signrawtransaction env eng params fHelp =
      .error (.JSONRPCError (-22) "Missing transaction")) ∧
    (∀ base rest, txVariants = base :: rest →
      signrawtransaction env eng params fHelp =
        (signrawtransactionPrevTxs params >>= fun prevTxs =>
          signrawtransactionKeys params >>= fun keys =>
          signrawtransactionHashType env params >>= fun nHashType =>
          SignTransaction env eng (base :: rest) prevTxs keys nHashType >>= fun signResult =>
          pure (Value.obj [("hex", Value.str (env.HexStr (env.Serialize signResult.2))),
            ("complete", Value.bool signResult.1)]))) := by
  have hshape : signrawtransaction env eng params fHelp =
      (if txVariants.isEmpty = true then
        (throw (Failure.JSONRPCError (-22) "Missing transaction") : Except Failure PUnit) >>=
          fun _ => signrawtransactionPrevTxs params >>= fun prevTxs =>
            signrawtransactionKeys params >>= fun keys =>
            signrawtransactionHashType env params >>= fun nHashType =>
            SignTransaction env eng txVariants prevTxs keys nHashType >>= fun signResult =>
            pure (Value.obj [("hex", Value.str (env.HexStr (env.Serialize signResult.2))),
              ("complete", Value.bool signResult.1)])
      else
        (pure PUnit.unit : Except Failure PUnit) >>=
          fun _ => signrawtransactionPrevTxs params >>= fun prevTxs =>
            signrawtransactionKeys params >>= fun keys =>
            signrawtransactionHashType env params >>= fun nHashType =>
            SignTransaction env eng txVariants prevTxs keys nHashType >>= fun signResult =>
            pure (Value.obj [("hex", Value.str (env.HexStr (env.Serialize signResult.2))),
              ("complete", Value.bool signResult.1)])) := by
    unfold signrawtransaction
    rw [if_neg hhelp]
    dsimp only
    split
    · rename_i hlt
      rw [hwallet hlt, ok_bind, htype, ok_bind]
      simp only [hp0, Value.get_str, ok_bind, hread]
    · rw [show (pure PUnit.unit : Except Failure PUnit) = .ok PUnit.unit from rfl, ok_bind,
        htype, ok_bind]
      simp only [hp0, Value.get_str, ok_bind, hread]
  constructor
  · intro hnil
    rw [hshape, hnil]
    rfl
  · intro base rest hcons
    rw [hshape, hcons]
    rfl

/-- Positional merging under congruence. For a non-empty variant list `base :: rest`
in which every variant has at least as many inputs as the first: reading the first
variant as base is in range; every lookup of a variant's input at an index of the
loop is in range, so the loop over the variants returns at every input and the
signing loop returns a result for every map of resolved outputs and every key
store; hence `SignTransaction` returns a result once output resolution and key
decoding have returned. On an empty list the read of the first variant is out of
range. -/
theorem merging_in_range (env : Env) (eng : ScriptEngine) (base : CTransaction)
    (rest : List CTransaction) (prevTxs keys : List Value) (nHashType : Int)
    (hcong : ∀ v ∈ rest, base.vin.length ≤ v.vin.length) :
    (base :: rest)[0]? = some base ∧
    (∀ i : Nat, i < base.vin.length → ∀ v ∈ base :: rest, ∃ txin, v.vin[i]? = some txin) ∧
    (∀ (p : CScript) (i : Nat) (t : CTransaction) (txin : CTxIn), i < base.vin.length →
      t.vin[i]? = some txin →
      ∃ t', (base :: rest).foldlM (combineVariant eng p i) t = .ok t') ∧
    (∀ m ks, ∃ c tx, signInputs eng ks m (base :: rest) nHashType base = .ok (c, tx)) ∧
    (∀ m ks, resolveOutputs env base prevTxs = .ok m → selectKeystore env keys = .ok ks →
      ∃ c tx, SignTransaction env eng (base :: rest) prevTxs keys nHashType = .ok (c, tx)) ∧
    SignTransaction env eng [] prevTxs keys nHashType = .error .OutOfRange := by
  have hlen : ∀ i : Nat, i < base.vin.length → ∀ v ∈ base :: rest, i < v.vin.length := by
    intro i hi v hv
    rcases List.mem_cons.mp hv with hv | hv
    · rw [hv]
      exact hi
    · exact Nat.lt_of_lt_of_le hi (hcong v hv)
  have hlt : ∀ (j : Nat) (txin : CTxIn), base.vin[j]? = some txin → j < base.vin.length := by
    intro j txin hj
    by_contra hge
    rw [List.getElem?_eq_none (Nat.le_of_not_lt hge)] at hj
    cases hj
  have hloop : ∀ m ks, ∃ c tx,
      signInputs eng ks m (base :: rest) nHashType base = .ok (c, tx) :=
    fun m ks => signInputs_total eng ks m (base :: rest) nHashType base
      (fun j txin _ hj _ v hv => hlen j (hlt j txin hj) v hv)
  have hb : (base :: rest)[0]? = some base := List.getElem?_cons_zero
  refine ⟨hb, fun i hi v hv => ?_, fun p i t txin hi ht => ?_, hloop, fun m ks hm hk => ?_, rfl⟩
  · cases hvi : v.vin[i]? with
    | some txin => exact ⟨txin, rfl⟩
    | none =>
      have := hlen i hi v hv
      rw [List.getElem?_eq_getElem this] at hvi
      cases hvi
  · rw [combine_foldlM eng p i (base :: rest) t txin ht, if_pos (hlen i hi)]
    exact ⟨_, rfl⟩
  · rw [SignTransaction_eq env eng (base :: rest) prevTxs keys nHashType base m ks hb hm hk]
    exact hloop m ks

/-- An instance of positional merging in range: `fixtureTx` with a second variant
of three inputs. -/
theorem merging_in_range_instance :
    (∀ v ∈ [(⟨[⟨⟨1, 0⟩, [107], 0⟩, ⟨⟨9, 0⟩, [], 0⟩, ⟨⟨4, 4⟩, [], 0⟩], []⟩ : CTransaction)],
      fixtureTx.vin.length ≤ v.vin.length) ∧
    ∃ c tx, SignTransaction fixtureEnv fixtureEngine
      (fixtureTx :: [⟨[⟨⟨1, 0⟩, [107], 0⟩, ⟨⟨9, 0⟩, [], 0⟩, ⟨⟨4, 4⟩, [], 0⟩], []⟩])
      [] [.str "k"] 1 = .ok (c, tx) :=
  ⟨by decide,
    (merging_in_range fixtureEnv fixtureEngine fixtureTx
      [⟨[⟨⟨1, 0⟩, [107], 0⟩, ⟨⟨9, 0⟩, [], 0⟩, ⟨⟨4, 4⟩, [], 0⟩], []⟩] [] [.str "k"] 1
      (by decide)).2.2.2.2.1 [(⟨1, 0⟩, [7])] (.tempKeystore [⟨1, true⟩]) (by decide) (by decide)⟩

/-- The chain lookup of line 343 indexes the outputs of the previous transaction
with `prevout.n` unchecked: it is out of range as soon as the transaction found has
no output `prevout.n`. -/
theorem copyPrevOut_out_of_range (env : Env) (mapPrevOut : PrevOutMap) (txin : CTxIn)
    (vout : List CTxOut) (hfound : env.mapPrevTx txin.prevout.hash = some vout)
    (hn : vout.length ≤ txin.prevout.n) :
    copyPrevOut env mapPrevOut txin = .error .OutOfRange := by
  simp [copyPrevOut, hfound, List.getElem?_eq_none hn]

/-- C12, at the single variant whose one input names output 5 of the chain
transaction 1, which has one output: the variant list is non-empty and congruent
and the merging loop returns for every map and key store, yet `SignTransaction`
runs into an out-of-range access, the one of the chain lookup of line 343, which
indexes `vout[txin.prevout.n]` unchecked. -/
theorem C12_chain_lookup_out_of_range :
    (∀ v ∈ ([] : List CTransaction),
      (⟨[⟨⟨1, 5⟩, [], 0⟩], []⟩ : CTransaction).vin.length ≤ v.vin.length) ∧
    fixtureEnv.mapPrevTx 1 = some [⟨50, [7]⟩] ∧
    (∀ m ks, ∃ c tx, signInputs fixtureEngine ks m [⟨[⟨⟨1, 5⟩, [], 0⟩], []⟩] 1
      ⟨[⟨⟨1, 5⟩, [], 0⟩], []⟩ = .ok (c, tx)) ∧
    copyPrevOut fixtureEnv [] ⟨⟨1, 5⟩, [], 0⟩ = .error .OutOfRange ∧
    fetchPrevOuts fixtureEnv ⟨[⟨⟨1, 5⟩, [], 0⟩], []⟩ = .error .OutOfRange ∧
    SignTransaction fixtureEnv fixtureEngine [⟨[⟨⟨1, 5⟩, [], 0⟩], []⟩] [] [] 1 =
      .error .OutOfRange ∧
    SignTransaction fixtureEnv fixtureEngine [⟨[⟨⟨1, 0⟩, [], 0⟩], []⟩] [] [] 1 =
      .ok (true, ⟨[⟨⟨1, 0⟩, [107], 0⟩], []⟩) :=
  ⟨(fun _ hv => by cases hv), rfl,
    (merging_in_range fixtureEnv fixtureEngine ⟨[⟨⟨1, 5⟩, [], 0⟩], []⟩ [] [] [] 1
      (fun _ hv => by cases hv)).2.2.2.1,
    by decide, by decide, by decide, by decide⟩

end Noirbits
